import Mathlib

/-!
Verification of the polyglot file codec (`src/components/AiAssistantModal.tsx`,
service portion): the metadata-envelope encoder `createPolyglot`, the payload
classifier `processPayload`, the PNG/JPEG/GIF boundary locators and the
M4A/ISO-BMFF box walker of `decodeM4AContainer`, the orchestration of
`decodePolyglot`, and the oracle-assisted split of `decodePolyglotWithAI`.

Buffers (`Uint8Array`) are modelled as `List Nat` of byte values; JavaScript
strings are modelled as `List Nat` of Unicode code points.  `TextEncoder`,
`TextDecoder` (WHATWG lossy UTF-8) and the fragment of `JSON.stringify` /
`JSON.parse` the code exercises are embedded executably.
-/

namespace Polyglot

/-- Code points of a string literal (used to write JS string constants). -/
def cps (s : String) : List Nat := s.data.map (fun ch => ch.toNat)

/-- Big-endian 32-bit read at `o`, as `DataView.getUint32(o, false)` on an
in-range offset (all reads in the source are bounds-guarded). -/
def be32 (data : List Nat) (o : Nat) : Nat :=
  data.getD o 0 * 0x1000000 + data.getD (o+1) 0 * 0x10000 +
    data.getD (o+2) 0 * 0x100 + data.getD (o+3) 0

/-- Bytes written by `DataView.setUint32(0, n, false)` (value is taken mod 2^32). -/
def be32encode (n : Nat) : List Nat :=
  [n / 0x1000000 % 0x100, n / 0x10000 % 0x100, n / 0x100 % 0x100, n % 0x100]

/-- `arr.slice(s, e)` on a `Uint8Array` (clamping as in JS). -/
def jsSlice (l : List Nat) (s e : Nat) : List Nat := (l.drop s).take (e - s)

/-- The inner comparison of `findSequence`: the needle matches at index `i`. -/
def matchesAt (haystack needle : List Nat) (i : Nat) : Bool :=
  decide (i + needle.length ≤ haystack.length) &&
    (List.range needle.length).all (fun j => haystack.getD (i+j) 0 == needle.getD j 0)

/-- Scanning loop of `findSequence`: try indices `i, i+1, ...` while fuel lasts. -/
def findSeqGo (haystack needle : List Nat) : Nat → Nat → Option Nat
  | 0, _ => none
  | fuel+1, i =>
    if matchesAt haystack needle i then some i else findSeqGo haystack needle fuel (i+1)

/-- `findSequence(haystack, needle, start)`: first index `≥ start` where the
needle occurs, else none (the JS function returns -1).  The JS loop runs
`i` up to `haystack.length - needle.length`; indices beyond that bound never
match, so scanning up to `haystack.length` is the same function. -/
def findSequence (haystack needle : List Nat) (start : Nat) : Option Nat :=
  findSeqGo haystack needle (haystack.length + 1 - start) start

/-- The `startsWith` helper of `decodePolyglot`. -/
def startsWithL (arr pfx : List Nat) : Bool :=
  if arr.length < pfx.length then false
  else (List.range pfx.length).all (fun i => arr.getD i 0 == pfx.getD i 0)

/-- Backward scan of `%TypedArray%.lastIndexOf` from index `k` down to 0. -/
def lastIdxGo (arr : List Nat) (v : Nat) : Nat → Option Nat
  | 0 => if arr.getD 0 0 == v then some 0 else none
  | k+1 => if arr.getD (k+1) 0 == v then some (k+1) else lastIdxGo arr v k

/-- `arr.lastIndexOf(v, fromIndex)` per the ECMAScript specification:
a non-negative `fromIndex` is clamped to `length - 1`; a negative one counts
from the end; a resulting negative start index finds nothing. -/
def jsLastIndexOf (arr : List Nat) (v : Nat) (fromIndex : Int) : Option Nat :=
  let k : Int := if 0 ≤ fromIndex then min fromIndex ((arr.length : Int) - 1)
                 else (arr.length : Int) + fromIndex
  if k < 0 then none else lastIdxGo arr v k.toNat

/-- One entry of the `signatures` table. -/
structure SigEntry where
  key : String
  sig : List Nat
  mime : String
  ext : String
deriving DecidableEq

/-- The `signatures` table, in the source's insertion order (a JS `for-in`
loop visits string keys in that order). -/
def signatures : List SigEntry :=
  [⟨"PNG", [0x89, 0x50, 0x4E, 0x47, 0x0D, 0x0A, 0x1A, 0x0A], "image/png", "png"⟩,
   ⟨"JPEG", [0xFF, 0xD8, 0xFF], "image/jpeg", "jpg"⟩,
   ⟨"GIF87a", [0x47, 0x49, 0x46, 0x38, 0x37, 0x61], "image/gif", "gif"⟩,
   ⟨"GIF89a", [0x47, 0x49, 0x46, 0x38, 0x39, 0x61], "image/gif", "gif"⟩,
   ⟨"ZIP", [0x50, 0x4B, 0x03, 0x04], "application/zip", "zip"⟩,
   ⟨"PDF", [0x25, 0x50, 0x44, 0x46], "application/pdf", "pdf"⟩,
   ⟨"EXE", [0x4D, 0x5A], "application/vnd.microsoft.portable-executable", "exe"⟩,
   ⟨"APK", [0x50, 0x4B, 0x03, 0x04], "application/vnd.android.package-archive", "apk"⟩]

/-- The `DecodedFile` result shape (`blob` is its byte content; `size` is
`blob.size`). -/
structure DecodedFile where
  data : List Nat
  name : List Nat
  type : List Nat
  size : Nat
deriving DecidableEq

/-- The `executableType` hint of `DecodeOptions`. -/
inductive ExecutableType where
  | exe
  | apk
deriving DecidableEq

/-- `expectedType.toUpperCase()` used as a key into `signatures`. -/
def sigKey : ExecutableType → String
  | ExecutableType.exe => "EXE"
  | ExecutableType.apk => "APK"

/-! ## UTF-8 (`TextEncoder` / `TextDecoder`) -/

/-- UTF-8 bytes of one code point, as `TextEncoder` emits them (an unpaired
surrogate code point is replaced by U+FFFD). -/
def utf8EncodeCp (n : Nat) : List Nat :=
  if 0xD800 ≤ n ∧ n < 0xE000 then [0xEF, 0xBF, 0xBD]
  else if n < 0x80 then [n]
  else if n < 0x800 then [0xC0 + n / 64, 0x80 + n % 64]
  else if n < 0x10000 then [0xE0 + n / 4096, 0x80 + n / 64 % 64, 0x80 + n % 64]
  else [0xF0 + n / 262144, 0x80 + n / 4096 % 64, 0x80 + n / 64 % 64, 0x80 + n % 64]

/-- `TextEncoder().encode` over a code-point string. -/
def utf8Encode : List Nat → List Nat
  | [] => []
  | c :: cs => utf8EncodeCp c ++ utf8Encode cs

/-- Handling of one byte by the WHATWG UTF-8 decoder in its initial state:
either a code point is emitted (ASCII, or U+FFFD on an illegal byte), or the
multi-byte state `(codePoint, bytesNeeded, lowerBoundary, upperBoundary)`
is entered. -/
def utf8InitByte (b : Nat) : Nat ⊕ (Nat × Nat × Nat × Nat) :=
  if b ≤ 0x7F then Sum.inl b
  else if 0xC2 ≤ b ∧ b ≤ 0xDF then Sum.inr (b - 0xC0, 1, 0x80, 0xBF)
  else if 0xE0 ≤ b ∧ b ≤ 0xEF then
    Sum.inr (b - 0xE0, 2, if b = 0xE0 then 0xA0 else 0x80, if b = 0xED then 0x9F else 0xBF)
  else if 0xF0 ≤ b ∧ b ≤ 0xF4 then
    Sum.inr (b - 0xF0, 3, if b = 0xF0 then 0x90 else 0x80, if b = 0xF4 then 0x8F else 0xBF)
  else Sum.inl 0xFFFD

/-- The WHATWG UTF-8 decoder state machine (`TextDecoder` with default
options): state is `(codePoint, bytesSeen, bytesNeeded, lower, upper)`.
On a continuation byte outside the boundaries the byte is reprocessed in the
initial state after emitting U+FFFD, as the standard prescribes. -/
def utf8DecodeGo (cp seen needed lower upper : Nat) : List Nat → List Nat
  | [] => if needed = 0 then [] else [0xFFFD]
  | b :: bs =>
    if needed = 0 then
      match utf8InitByte b with
      | Sum.inl c => c :: utf8DecodeGo 0 0 0 0x80 0xBF bs
      | Sum.inr st => utf8DecodeGo st.1 0 st.2.1 st.2.2.1 st.2.2.2 bs
    else if lower ≤ b ∧ b ≤ upper then
      if seen + 1 = needed then
        (cp * 64 + (b - 0x80)) :: utf8DecodeGo 0 0 0 0x80 0xBF bs
      else utf8DecodeGo (cp * 64 + (b - 0x80)) (seen + 1) needed 0x80 0xBF bs
    else
      0xFFFD :: (match utf8InitByte b with
        | Sum.inl c => c :: utf8DecodeGo 0 0 0 0x80 0xBF bs
        | Sum.inr st => utf8DecodeGo st.1 0 st.2.1 st.2.2.1 st.2.2.2 bs)

/-- BOM sniffing of the WHATWG `decode` hook: with the default
`ignoreBOM: false`, a leading UTF-8 byte-order mark `EF BB BF` is removed
from the stream before decoding. -/
def stripBOM (bs : List Nat) : List Nat :=
  if bs.getD 0 0 = 0xEF ∧ bs.getD 1 0 = 0xBB ∧ bs.getD 2 0 = 0xBF then bs.drop 3 else bs

/-- `new TextDecoder().decode(bytes)` as a code-point string (never throws;
malformed input yields U+FFFD replacements; a leading byte-order mark is
stripped, as the default `ignoreBOM: false` prescribes). -/
def utf8DecodeLossy (bs : List Nat) : List Nat := utf8DecodeGo 0 0 0 0x80 0xBF (stripBOM bs)

/-! ## JSON (`JSON.parse` / the `JSON.stringify` call of the encoder)

JSON values; number literals are stored as their source text, since the code
never reads a numeric value out of the parsed metadata. -/

inductive JVal where
  | jnull
  | jbool (b : Bool)
  | jnum (lit : List Nat)
  | jstr (s : List Nat)
  | jarr (elems : List JVal)
  | jobj (members : List (List Nat × JVal))

/-- JSON insignificant whitespace. -/
def jsonWs (c : Nat) : Bool := c == 32 || c == 9 || c == 10 || c == 13

def skipWs : List Nat → List Nat
  | [] => []
  | c :: cs => if jsonWs c then skipWs cs else c :: cs

/-- Value of a hexadecimal digit code point. -/
def hexVal (c : Nat) : Option Nat :=
  if 48 ≤ c ∧ c ≤ 57 then some (c - 48)
  else if 97 ≤ c ∧ c ≤ 102 then some (c - 87)
  else if 65 ≤ c ∧ c ≤ 70 then some (c - 55)
  else none

def hex4 (a b c d : Nat) : Option Nat :=
  match hexVal a, hexVal b, hexVal c, hexVal d with
  | some x, some y, some z, some w => some (x * 4096 + y * 256 + z * 16 + w)
  | _, _, _, _ => none

/-- Single-character JSON escapes. -/
def escChar (e : Nat) : Option Nat :=
  if e = 34 then some 34
  else if e = 92 then some 92
  else if e = 47 then some 47
  else if e = 98 then some 8
  else if e = 102 then some 12
  else if e = 110 then some 10
  else if e = 114 then some 13
  else if e = 116 then some 9
  else none

/-- JSON string body parser (after the opening quote), producing the UTF-16
code units of the JS string: each `\uXXXX` escape contributes its unit,
other characters contribute their code point.  Returns the units and the
input remaining after the closing quote. -/
def parseStrUnits : List Nat → Option (List Nat × List Nat)
  | [] => none
  | c :: rest =>
    if c = 34 then some ([], rest)
    else if c = 92 then
      match rest with
      | [] => none
      | e :: rest2 =>
        if e = 117 then
          match rest2 with
          | a :: b :: c2 :: d :: rest3 =>
            match hex4 a b c2 d with
            | none => none
            | some h => (parseStrUnits rest3).map (fun p => (h :: p.1, p.2))
          | _ => none
        else
          match escChar e with
          | some u => (parseStrUnits rest2).map (fun p => (u :: p.1, p.2))
          | none => none
    else if c < 32 then none
    else (parseStrUnits rest).map (fun p => (c :: p.1, p.2))

/-- View a UTF-16 unit sequence as code points: an adjacent high/low
surrogate pair is one astral code point, as in a JS string. -/
def combineSurrogates : List Nat → List Nat
  | [] => []
  | [u] => [u]
  | u1 :: u2 :: rest =>
    if (0xD800 ≤ u1 ∧ u1 ≤ 0xDBFF) ∧ (0xDC00 ≤ u2 ∧ u2 ≤ 0xDFFF) then
      (0x10000 + (u1 - 0xD800) * 1024 + (u2 - 0xDC00)) :: combineSurrogates rest
    else u1 :: combineSurrogates (u2 :: rest)

/-- JSON string body as code points. -/
def parseStrBody (input : List Nat) : Option (List Nat × List Nat) :=
  (parseStrUnits input).map (fun p => (combineSurrogates p.1, p.2))

def takeDigits : List Nat → List Nat × List Nat
  | [] => ([], [])
  | c :: cs =>
    if 48 ≤ c ∧ c ≤ 57 then
      let p := takeDigits cs
      (c :: p.1, p.2)
    else ([], c :: cs)

/-- Fraction and exponent parts of a JSON number. -/
def parseFracExp (intPart : List Nat) (r : List Nat) : Option (List Nat × List Nat) :=
  let fr : Option (List Nat × List Nat) :=
    match r with
    | 46 :: cs =>
      let p := takeDigits cs
      if p.1 = [] then none else some (intPart ++ 46 :: p.1, p.2)
    | _ => some (intPart, r)
  match fr with
  | none => none
  | some (lit, r2) =>
    match r2 with
    | c :: cs =>
      if c = 101 ∨ c = 69 then
        let (sgn, cs2) : List Nat × List Nat :=
          match cs with
          | 43 :: cs' => ([43], cs')
          | 45 :: cs' => ([45], cs')
          | _ => ([], cs)
        let p := takeDigits cs2
        if p.1 = [] then none else some (lit ++ c :: sgn ++ p.1, p.2)
      else some (lit, r2)
    | [] => some (lit, r2)

/-- JSON number grammar: `-? (0 | [1-9][0-9]*) frac? exp?`. -/
def parseNumber (input : List Nat) : Option (List Nat × List Nat) :=
  let (sgn, r1) : List Nat × List Nat :=
    match input with
    | 45 :: cs => ([45], cs)
    | _ => ([], input)
  match r1 with
  | [] => none
  | c :: cs =>
    if c = 48 then parseFracExp (sgn ++ [48]) cs
    else if 49 ≤ c ∧ c ≤ 57 then
      let p := takeDigits cs
      parseFracExp (sgn ++ c :: p.1) p.2
    else none

mutual

/-- JSON value parser (leading whitespace allowed); fuel bounds nesting. -/
def parseValue : Nat → List Nat → Option (JVal × List Nat)
  | 0, _ => none
  | fuel+1, input =>
    match skipWs input with
    | [] => none
    | c :: cs =>
      if c = 123 then
        match skipWs cs with
        | 125 :: r => some (JVal.jobj [], r)
        | _ => (parseMembers fuel cs).map (fun p => (JVal.jobj p.1, p.2))
      else if c = 91 then
        match skipWs cs with
        | 93 :: r => some (JVal.jarr [], r)
        | _ => (parseElems fuel cs).map (fun p => (JVal.jarr p.1, p.2))
      else if c = 34 then (parseStrBody cs).map (fun p => (JVal.jstr p.1, p.2))
      else if c = 116 then
        match cs with
        | 114 :: 117 :: 101 :: r => some (JVal.jbool true, r)
        | _ => none
      else if c = 102 then
        match cs with
        | 97 :: 108 :: 115 :: 101 :: r => some (JVal.jbool false, r)
        | _ => none
      else if c = 110 then
        match cs with
        | 117 :: 108 :: 108 :: r => some (JVal.jnull, r)
        | _ => none
      else if c = 45 ∨ (48 ≤ c ∧ c ≤ 57) then
        (parseNumber (c :: cs)).map (fun p => (JVal.jnum p.1, p.2))
      else none

/-- Object member list parser (input begins at the first key, possibly after
whitespace). -/
def parseMembers : Nat → List Nat → Option (List (List Nat × JVal) × List Nat)
  | 0, _ => none
  | fuel+1, input =>
    match skipWs input with
    | 34 :: cs =>
      match parseStrBody cs with
      | none => none
      | some (k, r1) =>
        match skipWs r1 with
        | 58 :: r2 =>
          match parseValue fuel r2 with
          | none => none
          | some (v, r3) =>
            match skipWs r3 with
            | 44 :: r4 => (parseMembers fuel r4).map (fun p => ((k, v) :: p.1, p.2))
            | 125 :: r4 => some ([(k, v)], r4)
            | _ => none
        | _ => none
    | _ => none

/-- Array element list parser. -/
def parseElems : Nat → List Nat → Option (List JVal × List Nat)
  | 0, _ => none
  | fuel+1, input =>
    match parseValue fuel input with
    | none => none
    | some (v, r) =>
      match skipWs r with
      | 44 :: r2 => (parseElems fuel r2).map (fun p => (v :: p.1, p.2))
      | 93 :: r2 => some ([v], r2)
      | _ => none

end

/-- `JSON.parse` on a code-point string: the whole input must be one value
surrounded only by whitespace. -/
def jsonParse (s : List Nat) : Option JVal :=
  match parseValue (s.length + 1) s with
  | some (v, rest) => if skipWs rest = [] then some v else none
  | none => none

/-- Last-wins member lookup (later duplicate JSON keys overwrite earlier
ones when JS builds the object). -/
def lookupLast (ms : List (List Nat × JVal)) (k : List Nat) : Option JVal :=
  ms.foldl (fun acc p => if p.1 = k then some p.2 else acc) none

/-- `typeof v.k === 'string' ? v.k : failure`: the property access the
decoder performs on the parsed metadata (a non-object or a missing or
non-string property falls through; `null.name` throws, which the
surrounding `try` also turns into a fall-through). -/
def getStr (v : JVal) (k : List Nat) : Option (List Nat) :=
  match v with
  | JVal.jobj ms =>
    match lookupLast ms k with
    | some (JVal.jstr s) => some s
    | _ => none
  | _ => none

/-- Lowercase hexadecimal digit, as `JSON.stringify` emits in `\uXXXX`. -/
def toHexDigit (n : Nat) : Nat := if n < 10 then 48 + n else 87 + n

/-- `\uXXXX` escape of a code unit. -/
def escU (c : Nat) : List Nat :=
  [92, 117, toHexDigit (c / 4096 % 16), toHexDigit (c / 256 % 16),
   toHexDigit (c / 16 % 16), toHexDigit (c % 16)]

/-- Escaping of one code point inside a `JSON.stringify` string literal. -/
def escapeCp (c : Nat) : List Nat :=
  if c = 34 then [92, 34]
  else if c = 92 then [92, 92]
  else if c = 8 then [92, 98]
  else if c = 9 then [92, 116]
  else if c = 10 then [92, 110]
  else if c = 12 then [92, 102]
  else if c = 13 then [92, 114]
  else if c < 32 then escU c
  else if 0xD800 ≤ c ∧ c < 0xE000 then escU c
  else [c]

def escapeStr : List Nat → List Nat
  | [] => []
  | c :: cs => escapeCp c ++ escapeStr cs

/-- A quoted JSON string literal. -/
def quoteStr (s : List Nat) : List Nat := 34 :: (escapeStr s ++ [34])

/-- `JSON.stringify({name, type})` for string fields, in V8's output shape
`\x7b"name":...,"type":...\x7d` with no whitespace. -/
def stringifyMeta (n t : List Nat) : List Nat :=
  [123] ++ quoteStr (cps "name") ++ [58] ++ quoteStr n ++ [44] ++
    quoteStr (cps "type") ++ [58] ++ quoteStr t ++ [125]

/-! ## Encoder: byte assembly of `createPolyglot`

The DOM conversion branch (`autoConvert` with a canvas) is outside the byte
codec; what is embedded is the envelope construction and concatenation:
`container ++ lengthBuffer ++ metadataBuffer ++ hiddenBuffer`, with
`metadata = \x7bname: hiddenFile.name, type: hiddenFile.type || 'application/octet-stream'\x7d`. -/
def createPolyglotBytes (container hiddenData hiddenName hiddenType : List Nat) : List Nat :=
  let metadataBuffer :=
    utf8Encode (stringifyMeta hiddenName
      (if hiddenType = [] then cps "application/octet-stream" else hiddenType))
  container ++ be32encode metadataBuffer.length ++ metadataBuffer ++ hiddenData

/-! ## Payload classifier (`processPayload`) -/

/-- The metadata-envelope branch of `processPayload` (lines 379-404): read a
4-byte big-endian length, bounds-check it, UTF-8-decode and `JSON.parse` the
record, and require string `name`/`type` fields and non-empty trailing data.
Any failure (including a caught `JSON.parse` or property-access exception)
yields `none`, i.e. the fall-through to signature detection. -/
def envelopeTier (payload : List Nat) : Option DecodedFile :=
  if 4 < payload.length then
    let metadataLength := be32 payload 0
    if 4 + metadataLength ≤ payload.length ∧ 0 < metadataLength ∧
        metadataLength < payload.length then
      match jsonParse (utf8DecodeLossy (jsSlice payload 4 (4 + metadataLength))) with
      | some metadata =>
        let fileData := payload.drop (4 + metadataLength)
        match getStr metadata (cps "name"), getStr metadata (cps "type") with
        | some n, some t =>
          if 0 < fileData.length then some ⟨fileData, n, t, fileData.length⟩ else none
        | _, _ => none
      | none => none
    else none
  else none

/-- The signature scan of `processPayload` (lines 410-428): entries are tried
in table order; an entry is accepted when its first occurrence lies at an
offset `< 16`. -/
def scanSignatures : List SigEntry → List Nat → Option (SigEntry × Nat)
  | [], _ => none
  | e :: es, payload =>
    match findSequence payload e.sig 0 with
    | some i => if i < 16 then some (e, i) else scanSignatures es payload
    | none => scanSignatures es payload

/-- The signature and generic tiers of `processPayload` (lines 407-440). -/
def fallbackTier (payload : List Nat) : Option DecodedFile :=
  if 0 < payload.length then
    match scanSignatures signatures payload with
    | some (e, i) =>
      some ⟨payload.drop i, cps "hidden-file." ++ cps e.ext, cps e.mime, payload.length - i⟩
    | none =>
      some ⟨payload, cps "hidden-file.dat", cps "application/octet-stream", payload.length⟩
  else none

/-- `processPayload`: envelope tier first, then signature/generic fallback. -/
def processPayload (payload : List Nat) : Option DecodedFile :=
  match envelopeTier payload with
  | some f => some f
  | none => fallbackTier payload

/-! ## PNG / JPEG / GIF boundary locators (`decodePolyglot`, lines 514-551) -/

/-- The JPEG last-`FF D9` scan (lines 535-545).  Each found occurrence moves
`searchOffset` past it, so `data.length + 1` iterations always reach the end
of the loop; the fuel-exhausted branch is unreachable at that bound. -/
def jpegGo (data : List Nat) : Nat → Nat → Option Nat → Option Nat
  | 0, _, lastKnown => lastKnown
  | fuel+1, searchOffset, lastKnown =>
    if searchOffset < data.length then
      match findSequence data [0xFF, 0xD9] searchOffset with
      | some t => jpegGo data fuel (t + 1) (some t)
      | none => lastKnown
    else lastKnown

/-- JPEG boundary: last `FF D9` occurrence plus its length 2. -/
def jpegLocate (data : List Nat) : Option Nat :=
  (jpegGo data (data.length + 1) 0 none).map (fun i => i + 2)

/-- GIF boundary (lines 549-550): backward search for the trailer byte `3B`
from index `length - 2`, plus trailer length 1. -/
def gifLocate (data : List Nat) : Option Nat :=
  (jsLastIndexOf data 0x3B ((data.length : Int) - 2)).map (fun i => i + 1)

/-- The PNG terminal sequence `00 00 00 00 49 45 4E 44 AE 42 60 82`. -/
def pngFullEof : List Nat := [0x00, 0x00, 0x00, 0x00, 0x49, 0x45, 0x4E, 0x44, 0xAE, 0x42, 0x60, 0x82]

/-- Marker dispatch of `decodePolyglot` (lines 530-551): the first matching
header's locator runs, exclusively. -/
def pngJpegGifSplit (data : List Nat) : Option Nat :=
  if startsWithL data [0x89, 0x50, 0x4E, 0x47] then
    (findSequence data pngFullEof 0).map (fun i => i + 12)
  else if startsWithL data [0xFF, 0xD8, 0xFF] then jpegLocate data
  else if startsWithL data [0x47, 0x49, 0x46] then gifLocate data
  else none

/-! ## M4A / ISO-BMFF box walker (`decodeM4AContainer`, lines 443-498) -/

/-- Characters accepted by the box-type check `/^[a-zA-Z0-9\s]{4}$/` (the JS
`\s` class: ASCII blanks plus the Unicode space separators, line/paragraph
separators and the BOM). -/
def boxCharOk (c : Nat) : Bool :=
  (0x41 ≤ c && c ≤ 0x5A) || (0x61 ≤ c && c ≤ 0x7A) || (0x30 ≤ c && c ≤ 0x39) ||
    c == 9 || c == 10 || c == 11 || c == 12 || c == 13 || c == 32 ||
    c == 0xA0 || c == 0x1680 ||
    (0x2000 ≤ c && c ≤ 0x200A) || c == 0x2028 || c == 0x2029 ||
    c == 0x202F || c == 0x205F || c == 0x3000 || c == 0xFEFF

/-- `regex.test(new TextDecoder().decode(data.subarray(o+4, o+8)))`: the
decoded text must be exactly four characters of the accepted class. -/
def boxTypeValid (data : List Nat) (o : Nat) : Bool :=
  let s := utf8DecodeLossy (jsSlice data (o + 4) (o + 8))
  s.length == 4 && s.all boxCharOk

/-- Outcome of one iteration of the box-walking `while` loop. -/
inductive M4AStep where
  | cont (next : Nat)
  | halt (boundary : Nat)
deriving DecidableEq

/-- One iteration of the walker at `offset` (lines 448-473), including the
`offset > data.length` rollback to `currentBoxStart`. -/
def m4aStep (data : List Nat) (offset : Nat) : M4AStep :=
  if offset + 8 ≤ data.length then
    let boxSize := be32 data offset
    if boxTypeValid data offset then
      if boxSize = 1 then
        if offset + 16 > data.length then M4AStep.halt offset
        else if 0 < be32 data (offset + 8) then M4AStep.halt offset
        else
          let newOffset := offset + be32 data (offset + 12)
          if data.length < newOffset then M4AStep.halt offset else M4AStep.cont newOffset
      else if boxSize = 0 then M4AStep.halt data.length
      else
        let newOffset := offset + boxSize
        if data.length < newOffset then M4AStep.halt offset else M4AStep.cont newOffset
    else M4AStep.halt offset
  else M4AStep.halt offset

/-- The walker loop.  `none` means the fuel ran out, which at the fuel used
below can only happen when the JS loop does not terminate (every continuing
iteration either strictly increases the offset, which is bounded by the
buffer length, or repeats the same state forever). -/
def m4aLoop (data : List Nat) : Nat → Nat → Option Nat
  | 0, _ => none
  | fuel+1, offset =>
    match m4aStep data offset with
    | M4AStep.halt b => some b
    | M4AStep.cont n => m4aLoop data fuel n

/-- `decodeM4AContainer`: walk the boxes from offset 0, then require
`0 < splitIndex < length` and the hint's signature at offset 0 of the
payload.  The outer `Option` is the modelling of non-termination: `none`
means the source loop runs forever. -/
def decodeM4AContainer (data : List Nat) (expectedType : ExecutableType) :
    Option (Option DecodedFile) :=
  match m4aLoop data (data.length + 2) 0 with
  | none => none
  | some splitIndex =>
    some (
      if 0 < splitIndex ∧ splitIndex < data.length then
        let payload := data.drop splitIndex
        match signatures.find? (fun e => e.key == sigKey expectedType) with
        | some e =>
          if findSequence payload e.sig 0 = some 0 then
            some ⟨payload, cps "hidden." ++ cps e.ext, cps e.mime, payload.length⟩
          else none
        | none => none
      else none)

/-! ## Orchestration (`decodePolyglot`, `decodePolyglotWithAI`) -/

/-- ASCII case of `String.prototype.toLowerCase` (the full Unicode mapping
agrees with this on the ASCII suffix `.m4a` being tested). -/
def asciiLower (s : List Nat) : List Nat :=
  s.map (fun c => if 65 ≤ c ∧ c ≤ 90 then c + 32 else c)

/-- `polyglotFile.name.toLowerCase().endsWith('.m4a') || polyglotFile.type === 'audio/mp4'`. -/
def isM4AFile (fileName fileType : List Nat) : Bool :=
  (cps ".m4a").isSuffixOf (asciiLower fileName) || fileType == cps "audio/mp4"

/-- The marker tier of `decodePolyglot` (lines 514-558): locate, then
require `splitIndex < length` and classify the sliced payload. -/
def markerTierDecode (data : List Nat) : Option DecodedFile :=
  match pngJpegGifSplit data with
  | some i => if i < data.length then processPayload (data.drop i) else none
  | none => none

/-- `decodePolyglot(file, options)` over the file's name, MIME type, the
`executableType` option and the buffer bytes.  The outer `Option` is `none`
exactly when the M4A walker diverges (the call never returns). -/
def decodePolyglot (fileName fileType : List Nat) (executableType : Option ExecutableType)
    (data : List Nat) : Option (Option DecodedFile) :=
  match (if isM4AFile fileName fileType then executableType else none) with
  | some t =>
    match decodeM4AContainer data t with
    | none => none
    | some (some r) => some (some r)
    | some none => some (markerTierDecode data)
  | none => some (markerTierDecode data)

/-- The decision `decodePolyglotWithAI` takes on the oracle's reply
(lines 611-621): the transport and JSON-schema plumbing are external, so the
reply is modelled by the integer `splitIndex` it carries (a non-numeric or
absent field behaves like the out-of-range case: no hidden file). -/
def decodePolyglotWithAI (data : List Nat) (splitIndex : Int) : Option DecodedFile :=
  if 0 < splitIndex ∧ splitIndex < (data.length : Int) then
    processPayload (data.drop splitIndex.toNat)
  else none

/-! ## Lemmas about the search primitives -/

theorem getD_drop (l : List Nat) (n i d : Nat) :
    (l.drop n).getD i d = l.getD (n + i) d := by
  simp [List.getD_eq_getElem?_getD, List.getElem?_drop]

theorem matchesAt_false_of_lt (haystack needle : List Nat) (i : Nat)
    (h : haystack.length < i + needle.length) : matchesAt haystack needle i = false := by
  simp [matchesAt]
  omega

theorem findSeqGo_some (haystack needle : List Nat) (fuel i j : Nat)
    (h : findSeqGo haystack needle fuel i = some j) :
    matchesAt haystack needle j = true ∧ i ≤ j ∧
      ∀ k, i ≤ k → k < j → matchesAt haystack needle k = false := by
  induction fuel generalizing i with
  | zero => simp [findSeqGo] at h
  | succ fuel ih =>
    rw [findSeqGo] at h
    by_cases hm : matchesAt haystack needle i = true
    · simp [hm] at h
      subst h
      exact ⟨hm, Nat.le_refl _, fun k hk1 hk2 => absurd hk1 (by omega)⟩
    · simp [hm] at h
      obtain ⟨hmj, hij, hmin⟩ := ih (i+1) h
      refine ⟨hmj, by omega, fun k hk1 hk2 => ?_⟩
      by_cases hk : k = i
      · subst hk
        simpa using hm
      · exact hmin k (by omega) hk2

theorem findSeqGo_none (haystack needle : List Nat) (fuel i : Nat)
    (h : findSeqGo haystack needle fuel i = none) :
    ∀ k, i ≤ k → k < i + fuel → matchesAt haystack needle k = false := by
  induction fuel generalizing i with
  | zero => intro k h1 h2; omega
  | succ fuel ih =>
    rw [findSeqGo] at h
    by_cases hm : matchesAt haystack needle i = true
    · simp [hm] at h
    · simp [hm] at h
      intro k hk1 hk2
      by_cases hk : k = i
      · subst hk
        simpa using hm
      · exact ih (i+1) h k (by omega) (by omega)

theorem findSequence_some (haystack needle : List Nat) (start j : Nat)
    (h : findSequence haystack needle start = some j) :
    matchesAt haystack needle j = true ∧ start ≤ j ∧
      ∀ k, start ≤ k → k < j → matchesAt haystack needle k = false :=
  findSeqGo_some _ _ _ _ _ h

theorem findSequence_none (haystack needle : List Nat) (start : Nat)
    (h : findSequence haystack needle start = none) :
    ∀ k, start ≤ k → matchesAt haystack needle k = false := by
  intro k hk
  by_cases hbig : haystack.length < k + needle.length
  · exact matchesAt_false_of_lt _ _ _ hbig
  · have hkle : k ≤ haystack.length := by omega
    exact findSeqGo_none _ _ _ _ h k hk (by omega)

theorem findSequence_exists (haystack needle : List Nat) (start j : Nat)
    (hm : matchesAt haystack needle j = true) (hj : start ≤ j) :
    ∃ i, findSequence haystack needle start = some i ∧ start ≤ i ∧ i ≤ j ∧
      matchesAt haystack needle i = true := by
  match hf : findSequence haystack needle start with
  | none => exact absurd (findSequence_none _ _ _ hf j hj) (by simp [hm])
  | some i =>
    obtain ⟨hmi, hsi, hmin⟩ := findSequence_some _ _ _ _ hf
    refine ⟨i, rfl, hsi, ?_, hmi⟩
    by_contra hij
    exact absurd hm (by simp [hmin j hj (by omega)])

theorem findSequence_zero_of_matchesAt (haystack needle : List Nat)
    (hm : matchesAt haystack needle 0 = true) :
    findSequence haystack needle 0 = some 0 := by
  obtain ⟨i, hf, _, hle, _⟩ := findSequence_exists haystack needle 0 0 hm (Nat.zero_le _)
  have : i = 0 := by omega
  subst this
  exact hf

theorem startsWithL_length (arr pfx : List Nat) (h : startsWithL arr pfx = true) :
    pfx.length ≤ arr.length := by
  simp [startsWithL] at h
  exact h.1

theorem startsWithL_getD (arr pfx : List Nat) (h : startsWithL arr pfx = true)
    (i : Nat) (hi : i < pfx.length) : arr.getD i 0 = pfx.getD i 0 := by
  simp [startsWithL] at h
  simpa [List.getD_eq_getElem?_getD] using h.2 i hi

theorem startsWithL_false_of_getD (arr pfx : List Nat) (i : Nat) (hi : i < pfx.length)
    (h : arr.getD i 0 ≠ pfx.getD i 0) : startsWithL arr pfx = false := by
  by_contra hc
  simp at hc
  exact h (startsWithL_getD arr pfx hc i hi)

theorem lastIdxGo_spec (arr : List Nat) (v p k : Nat)
    (hp : arr.getD p 0 = v) (hpk : p ≤ k)
    (hlast : ∀ q, p < q → q ≤ k → arr.getD q 0 ≠ v) :
    lastIdxGo arr v k = some p := by
  induction k with
  | zero =>
    have hpz : p = 0 := by omega
    subst hpz
    have hc : (arr.getD 0 0 == v) = true := by simpa using hp
    simp only [lastIdxGo]
    rw [if_pos hc]
  | succ k ih =>
    by_cases hk : p = k + 1
    · subst hk
      have hc : (arr.getD (k+1) 0 == v) = true := by simpa using hp
      simp only [lastIdxGo]
      rw [if_pos hc]
    · have hne : arr.getD (k+1) 0 ≠ v := hlast (k+1) (by omega) (Nat.le_refl _)
      have hc : (arr.getD (k+1) 0 == v) = false := by simpa using hne
      simp only [lastIdxGo, hc, Bool.false_eq_true, if_false]
      exact ih (by omega) (fun q h1 h2 => hlast q h1 (by omega))

/-! ## Lemmas about `be32` and its encoder -/

theorem be32_encode_append (n : Nat) (rest : List Nat) (h : n < 0x100000000) :
    be32 (be32encode n ++ rest) 0 = n := by
  simp [be32, be32encode, List.getD]
  omega

theorem length_be32encode (n : Nat) : (be32encode n).length = 4 := by
  simp [be32encode]

/-! ## Lemmas about the walker and JPEG loops -/

theorem m4aLoop_halt (data : List Nat) (fuel o b : Nat)
    (h : m4aStep data o = M4AStep.halt b) : m4aLoop data (fuel+1) o = some b := by
  simp [m4aLoop, h]

theorem m4aLoop_cont (data : List Nat) (fuel o n : Nat)
    (h : m4aStep data o = M4AStep.cont n) : m4aLoop data (fuel+1) o = m4aLoop data fuel n := by
  simp [m4aLoop, h]

theorem m4aLoop_none_of_selfloop (data : List Nat) (o : Nat)
    (h : m4aStep data o = M4AStep.cont o) : ∀ fuel, m4aLoop data fuel o = none := by
  intro fuel
  induction fuel with
  | zero => rfl
  | succ fuel ih => rw [m4aLoop_cont data fuel o o h]; exact ih

theorem jpegGo_ret (data : List Nat) (p : Nat)
    (hp : matchesAt data [0xFF, 0xD9] p = true)
    (hlast : ∀ q, p < q → matchesAt data [0xFF, 0xD9] q = false) :
    ∀ fuel so lastKnown, data.length - so < fuel → so ≤ p →
      jpegGo data fuel so lastKnown = some p := by
  have hplen : p + 2 ≤ data.length := by
    by_contra hc
    exact absurd hp (by simp [matchesAt_false_of_lt data [0xFF, 0xD9] p (by simp; omega)])
  intro fuel
  induction fuel with
  | zero => intro so lastKnown h1 h2; omega
  | succ fuel ih =>
    intro so lastKnown hfuel hso
    have hso_lt : so < data.length := by omega
    obtain ⟨t, hft, hst, htp, hmt⟩ := findSequence_exists data [0xFF, 0xD9] so p hp hso
    rw [jpegGo, if_pos hso_lt, hft]
    show jpegGo data fuel (t + 1) (some t) = some p
    by_cases htp_eq : t = p
    · subst htp_eq
      cases fuel with
      | zero => omega
      | succ fuel2 =>
        rw [jpegGo]
        by_cases hnext : t + 1 < data.length
        · rw [if_pos hnext]
          match hf2 : findSequence data [0xFF, 0xD9] (t + 1) with
          | some u =>
            obtain ⟨hmu, hu, _⟩ := findSequence_some _ _ _ _ hf2
            exact absurd hmu (by simp [hlast u (by omega)])
          | none => simp [hf2]
        · rw [if_neg hnext]
    · exact ih (t + 1) (some t) (by omega) (by omega)

/-! ## UTF-8 round-trip -/

/-- The code points of a well-formed JS string: Unicode scalar values. -/
def ScalarString (s : List Nat) : Prop :=
  ∀ c ∈ s, (c < 0xD800 ∨ 0xE000 ≤ c) ∧ c < 0x110000

theorem utf8InitByte_ascii (b : Nat) (h : b ≤ 0x7F) : utf8InitByte b = Sum.inl b := by
  rw [utf8InitByte, if_pos h]

theorem utf8InitByte_two (b : Nat) (h1 : 0xC2 ≤ b) (h2 : b ≤ 0xDF) :
    utf8InitByte b = Sum.inr (b - 0xC0, 1, 0x80, 0xBF) := by
  rw [utf8InitByte, if_neg (by omega), if_pos ⟨h1, h2⟩]

theorem utf8InitByte_three (b : Nat) (h1 : 0xE0 ≤ b) (h2 : b ≤ 0xEF) :
    utf8InitByte b = Sum.inr (b - 0xE0, 2, if b = 0xE0 then 0xA0 else 0x80,
      if b = 0xED then 0x9F else 0xBF) := by
  rw [utf8InitByte, if_neg (by omega), if_neg (by omega), if_pos ⟨h1, h2⟩]

theorem utf8InitByte_four (b : Nat) (h1 : 0xF0 ≤ b) (h2 : b ≤ 0xF4) :
    utf8InitByte b = Sum.inr (b - 0xF0, 3, if b = 0xF0 then 0x90 else 0x80,
      if b = 0xF4 then 0x8F else 0xBF) := by
  rw [utf8InitByte, if_neg (by omega), if_neg (by omega), if_neg (by omega), if_pos ⟨h1, h2⟩]

theorem utf8DecodeGo_init_inl (b c : Nat) (bs : List Nat) (h : utf8InitByte b = Sum.inl c) :
    utf8DecodeGo 0 0 0 0x80 0xBF (b :: bs) = c :: utf8DecodeGo 0 0 0 0x80 0xBF bs := by
  rw [utf8DecodeGo, if_pos rfl, h]

theorem utf8DecodeGo_init_inr (b cp n lo hi : Nat) (bs : List Nat)
    (h : utf8InitByte b = Sum.inr (cp, n, lo, hi)) :
    utf8DecodeGo 0 0 0 0x80 0xBF (b :: bs) = utf8DecodeGo cp 0 n lo hi bs := by
  rw [utf8DecodeGo, if_pos rfl, h]

theorem utf8DecodeGo_cont (cp seen needed lower upper b : Nat) (bs : List Nat)
    (hn : needed ≠ 0) (hl : lower ≤ b) (hu : b ≤ upper) (hs : seen + 1 ≠ needed) :
    utf8DecodeGo cp seen needed lower upper (b :: bs) =
      utf8DecodeGo (cp * 64 + (b - 0x80)) (seen + 1) needed 0x80 0xBF bs := by
  rw [utf8DecodeGo, if_neg hn, if_pos ⟨hl, hu⟩, if_neg hs]

theorem utf8DecodeGo_emit (cp seen needed lower upper b : Nat) (bs : List Nat)
    (hn : needed ≠ 0) (hl : lower ≤ b) (hu : b ≤ upper) (hs : seen + 1 = needed) :
    utf8DecodeGo cp seen needed lower upper (b :: bs) =
      (cp * 64 + (b - 0x80)) :: utf8DecodeGo 0 0 0 0x80 0xBF bs := by
  rw [utf8DecodeGo, if_neg hn, if_pos ⟨hl, hu⟩, if_pos hs]

theorem utf8EncodeCp_roundtrip (c : Nat) (hsur : c < 0xD800 ∨ 0xE000 ≤ c)
    (hmax : c < 0x110000) (bs : List Nat) :
    utf8DecodeGo 0 0 0 0x80 0xBF (utf8EncodeCp c ++ bs) =
      c :: utf8DecodeGo 0 0 0 0x80 0xBF bs := by
  by_cases h1 : c < 0x80
  · have he : utf8EncodeCp c = [c] := by
      rw [utf8EncodeCp, if_neg (by omega), if_pos h1]
    rw [he, List.cons_append, List.nil_append,
      utf8DecodeGo_init_inl c c bs (utf8InitByte_ascii c (by omega))]
  · by_cases h2 : c < 0x800
    · have he : utf8EncodeCp c = [0xC0 + c / 64, 0x80 + c % 64] := by
        rw [utf8EncodeCp, if_neg (by omega), if_neg (by omega), if_pos h2]
      rw [he]
      simp only [List.cons_append, List.nil_append]
      rw [utf8DecodeGo_init_inr _ _ _ _ _ _ (utf8InitByte_two _ (by omega) (by omega))]
      have hc1 : 0xC0 + c / 64 - 0xC0 = c / 64 := by omega
      rw [hc1]
      rw [utf8DecodeGo_emit _ _ _ _ _ _ bs (by omega) (by omega) (by omega) rfl]
      have hv : c / 64 * 64 + (0x80 + c % 64 - 0x80) = c := by omega
      rw [hv]
    · by_cases h3 : c < 0x10000
      · have he : utf8EncodeCp c = [0xE0 + c / 4096, 0x80 + c / 64 % 64, 0x80 + c % 64] := by
          rw [utf8EncodeCp, if_neg (by omega), if_neg (by omega), if_neg (by omega), if_pos h3]
        rw [he]
        simp only [List.cons_append, List.nil_append]
        rw [utf8DecodeGo_init_inr _ _ _ _ _ _
          (utf8InitByte_three _ (by omega) (by omega))]
        have hc1 : 0xE0 + c / 4096 - 0xE0 = c / 4096 := by omega
        rw [hc1]
        have hlow : (if 0xE0 + c / 4096 = 0xE0 then 0xA0 else 0x80) ≤ 0x80 + c / 64 % 64 := by
          split
          · omega
          · omega
        have hup : 0x80 + c / 64 % 64 ≤ (if 0xE0 + c / 4096 = 0xED then 0x9F else 0xBF) := by
          split
          · omega
          · omega
        rw [utf8DecodeGo_cont _ _ _ _ _ _ _ (by omega) hlow hup (by omega)]
        rw [utf8DecodeGo_emit _ _ _ _ _ _ bs (by omega) (by omega) (by omega) rfl]
        have hv : (c / 4096 * 64 + (0x80 + c / 64 % 64 - 0x80)) * 64 +
            (0x80 + c % 64 - 0x80) = c := by omega
        rw [hv]
      · have he : utf8EncodeCp c =
            [0xF0 + c / 262144, 0x80 + c / 4096 % 64, 0x80 + c / 64 % 64, 0x80 + c % 64] := by
          rw [utf8EncodeCp, if_neg (by omega), if_neg (by omega), if_neg (by omega),
            if_neg (by omega)]
        rw [he]
        simp only [List.cons_append, List.nil_append]
        rw [utf8DecodeGo_init_inr _ _ _ _ _ _
          (utf8InitByte_four _ (by omega) (by omega))]
        have hc1 : 0xF0 + c / 262144 - 0xF0 = c / 262144 := by omega
        rw [hc1]
        have hlow : (if 0xF0 + c / 262144 = 0xF0 then 0x90 else 0x80) ≤
            0x80 + c / 4096 % 64 := by
          split
          · omega
          · omega
        have hup : 0x80 + c / 4096 % 64 ≤ (if 0xF0 + c / 262144 = 0xF4 then 0x8F else 0xBF) := by
          split
          · omega
          · omega
        rw [utf8DecodeGo_cont _ _ _ _ _ _ _ (by omega) hlow hup (by omega)]
        rw [utf8DecodeGo_cont _ _ _ _ _ _ _ (by omega) (by omega) (by omega) (by omega)]
        rw [utf8DecodeGo_emit _ _ _ _ _ _ bs (by omega) (by omega) (by omega) rfl]
        have hv : ((c / 262144 * 64 + (0x80 + c / 4096 % 64 - 0x80)) * 64 +
            (0x80 + c / 64 % 64 - 0x80)) * 64 + (0x80 + c % 64 - 0x80) = c := by omega
        rw [hv]

theorem utf8Go_roundtrip : ∀ s, ScalarString s →
    utf8DecodeGo 0 0 0 0x80 0xBF (utf8Encode s) = s := by
  intro s
  induction s with
  | nil => intro _; rfl
  | cons c cs ih =>
    intro hs
    have hc := hs c (List.mem_cons_self c cs)
    have hcs : ScalarString cs := fun x hx => hs x (List.mem_cons_of_mem _ hx)
    simp only [utf8Encode]
    rw [utf8EncodeCp_roundtrip c hc.1 hc.2]
    exact congrArg (List.cons c) (ih hcs)

theorem utf8_roundtrip (s : List Nat) (hs : ScalarString s)
    (hhead : (utf8Encode s).getD 0 0 ≠ 0xEF) :
    utf8DecodeLossy (utf8Encode s) = s := by
  rw [utf8DecodeLossy, stripBOM, if_neg (fun hc => hhead hc.1)]
  exact utf8Go_roundtrip s hs

/-! ## JSON round-trip: string escapes -/

theorem toHexDigit_hexVal : ∀ d, d < 16 → hexVal (toHexDigit d) = some d := by decide

theorem toHexDigit_le (d : Nat) (h : d < 16) : toHexDigit d ≤ 102 := by
  rw [toHexDigit]
  split
  · omega
  · omega

theorem hex4_digits (c : Nat) (h : c < 0x10000) :
    hex4 (toHexDigit (c / 4096 % 16)) (toHexDigit (c / 256 % 16))
      (toHexDigit (c / 16 % 16)) (toHexDigit (c % 16)) = some c := by
  rw [hex4, toHexDigit_hexVal _ (by omega), toHexDigit_hexVal _ (by omega),
    toHexDigit_hexVal _ (by omega), toHexDigit_hexVal _ (by omega)]
  have hv : c / 4096 % 16 * 4096 + c / 256 % 16 * 256 + c / 16 % 16 * 16 + c % 16 = c := by
    omega
  exact congrArg some hv

theorem parseStrUnits_escape (s : List Nat) (hs : ScalarString s) (rest : List Nat) :
    parseStrUnits (escapeStr s ++ 34 :: rest) = some (s, rest) := by
  induction s with
  | nil =>
    rw [escapeStr, List.nil_append, parseStrUnits.eq_def]
    simp
  | cons c cs ih =>
    have hc := hs c (List.mem_cons_self c cs)
    have hcs : ScalarString cs := fun x hx => hs x (List.mem_cons_of_mem _ hx)
    have ihe := ih hcs
    by_cases h34 : c = 34
    · subst h34
      have he : escapeCp 34 = [92, 34] := by decide
      rw [escapeStr, he]
      simp only [List.cons_append, List.nil_append]
      rw [parseStrUnits.eq_def]
      simp [escChar, ihe]
    · by_cases h92 : c = 92
      · subst h92
        have he : escapeCp 92 = [92, 92] := by decide
        rw [escapeStr, he]
        simp only [List.cons_append, List.nil_append]
        rw [parseStrUnits.eq_def]
        simp [escChar, ihe]
      · by_cases h8 : c = 8
        · subst h8
          have he : escapeCp 8 = [92, 98] := by decide
          rw [escapeStr, he]
          simp only [List.cons_append, List.nil_append]
          rw [parseStrUnits.eq_def]
          simp [escChar, ihe]
        · by_cases h9 : c = 9
          · subst h9
            have he : escapeCp 9 = [92, 116] := by decide
            rw [escapeStr, he]
            simp only [List.cons_append, List.nil_append]
            rw [parseStrUnits.eq_def]
            simp [escChar, ihe]
          · by_cases h10 : c = 10
            · subst h10
              have he : escapeCp 10 = [92, 110] := by decide
              rw [escapeStr, he]
              simp only [List.cons_append, List.nil_append]
              rw [parseStrUnits.eq_def]
              simp [escChar, ihe]
            · by_cases h12 : c = 12
              · subst h12
                have he : escapeCp 12 = [92, 102] := by decide
                rw [escapeStr, he]
                simp only [List.cons_append, List.nil_append]
                rw [parseStrUnits.eq_def]
                simp [escChar, ihe]
              · by_cases h13 : c = 13
                · subst h13
                  have he : escapeCp 13 = [92, 114] := by decide
                  rw [escapeStr, he]
                  simp only [List.cons_append, List.nil_append]
                  rw [parseStrUnits.eq_def]
                  simp [escChar, ihe]
                · by_cases hctl : c < 32
                  · have he : escapeCp c = escU c := by
                      rw [escapeCp, if_neg h34, if_neg h92, if_neg h8, if_neg h9,
                        if_neg h10, if_neg h12, if_neg h13, if_pos hctl]
                    rw [escapeStr, he, escU]
                    simp only [List.cons_append, List.nil_append]
                    rw [parseStrUnits.eq_def]
                    simp [hex4_digits c (by omega), ihe]
                  · have hnsur : ¬(0xD800 ≤ c ∧ c < 0xE000) := by
                      rcases hc.1 with h | h
                      · omega
                      · omega
                    have he : escapeCp c = [c] := by
                      rw [escapeCp, if_neg h34, if_neg h92, if_neg h8, if_neg h9,
                        if_neg h10, if_neg h12, if_neg h13, if_neg hctl, if_neg hnsur]
                    rw [escapeStr, he]
                    simp only [List.cons_append, List.nil_append]
                    rw [parseStrUnits.eq_def]
                    simp [h34, h92, hctl, ihe]

theorem combineSurrogates_id (s : List Nat)
    (hs : ∀ c ∈ s, c < 0xD800 ∨ 0xE000 ≤ c) : combineSurrogates s = s := by
  induction s with
  | nil => rfl
  | cons u1 tail ih =>
    cases tail with
    | nil => rfl
    | cons u2 rest =>
      have h1 := hs u1 (List.mem_cons_self _ _)
      rw [combineSurrogates, if_neg (by omega)]
      exact congrArg (List.cons u1) (ih (fun x hx => hs x (List.mem_cons_of_mem _ hx)))

theorem parseStrBody_escape (s : List Nat) (hs : ScalarString s) (rest : List Nat) :
    parseStrBody (escapeStr s ++ 34 :: rest) = some (s, rest) := by
  rw [parseStrBody, parseStrUnits_escape s hs rest]
  simp [combineSurrogates_id s (fun c hc => (hs c hc).1)]

/-! ## JSON round-trip: the metadata object -/

theorem skipWs_not (c : Nat) (X : List Nat) (h : jsonWs c = false) :
    skipWs (c :: X) = c :: X := by
  rw [skipWs]
  simp [h]

theorem scalarString_name : ScalarString (cps "name") := by
  unfold ScalarString
  decide

theorem scalarString_type : ScalarString (cps "type") := by
  unfold ScalarString
  decide

theorem parseValue_string (f : Nat) (s rest : List Nat) (hs : ScalarString s) :
    parseValue (f+1) (34 :: (escapeStr s ++ 34 :: rest)) = some (JVal.jstr s, rest) := by
  rw [parseValue, skipWs_not 34 _ (by decide)]
  simp [parseStrBody_escape s hs rest]

theorem parseMembers_last (f : Nat) (k v rest : List Nat)
    (hk : ScalarString k) (hv : ScalarString v) :
    parseMembers (f+2) (34 :: (escapeStr k ++ 34 :: 58 :: 34 ::
      (escapeStr v ++ 34 :: 125 :: rest))) = some ([(k, JVal.jstr v)], rest) := by
  rw [parseMembers, skipWs_not 34 _ (by decide)]
  simp only [parseStrBody_escape k hk, skipWs_not 58 _ (by decide)]
  rw [parseValue_string f v (125 :: rest) hv]
  simp only [skipWs_not 125 _ (by decide)]

theorem parseMembers_cons (f : Nat) (k v more : List Nat)
    (hk : ScalarString k) (hv : ScalarString v) :
    parseMembers (f+2) (34 :: (escapeStr k ++ 34 :: 58 :: 34 ::
      (escapeStr v ++ 34 :: 44 :: more))) =
      (parseMembers (f+1) more).map (fun p => ((k, JVal.jstr v) :: p.1, p.2)) := by
  rw [parseMembers, skipWs_not 34 _ (by decide)]
  simp only [parseStrBody_escape k hk, skipWs_not 58 _ (by decide)]
  rw [parseValue_string f v (44 :: more) hv]
  simp only [skipWs_not 44 _ (by decide)]

theorem stringifyMeta_shape (n t : List Nat) :
    stringifyMeta n t = 123 :: 34 :: (escapeStr (cps "name") ++ 34 :: 58 :: 34 ::
      (escapeStr n ++ 34 :: 44 :: (34 :: (escapeStr (cps "type") ++ 34 :: 58 :: 34 ::
      (escapeStr t ++ 34 :: 125 :: ([] : List Nat)))))) := by
  simp [stringifyMeta, quoteStr]

theorem parseValue_meta (f : Nat) (n t : List Nat)
    (hn : ScalarString n) (ht : ScalarString t) :
    parseValue (f+5) (stringifyMeta n t) =
      some (JVal.jobj [(cps "name", JVal.jstr n), (cps "type", JVal.jstr t)], []) := by
  rw [stringifyMeta_shape, parseValue, skipWs_not 123 _ (by decide)]
  simp only [skipWs_not 34 _ (by decide)]
  rw [show (f + 4) = (f + 2) + 2 from rfl]
  rw [parseMembers_cons (f+2) (cps "name") n _ scalarString_name hn]
  rw [show ((f + 2) + 1) = (f + 1) + 2 from rfl]
  rw [parseMembers_last (f+1) (cps "type") t [] scalarString_type ht]
  rfl

theorem stringifyMeta_len (n t : List Nat) : 4 ≤ (stringifyMeta n t).length := by
  simp [stringifyMeta, quoteStr]
  omega

theorem jsonParse_meta (n t : List Nat) (hn : ScalarString n) (ht : ScalarString t) :
    jsonParse (stringifyMeta n t) =
      some (JVal.jobj [(cps "name", JVal.jstr n), (cps "type", JVal.jstr t)]) := by
  have hlen := stringifyMeta_len n t
  obtain ⟨kk, hkk⟩ := Nat.exists_eq_add_of_le (show 5 ≤ (stringifyMeta n t).length + 1 by omega)
  rw [jsonParse, show (stringifyMeta n t).length + 1 = kk + 5 by omega]
  rw [parseValue_meta kk n t hn ht]
  rfl


/-! ## Scalar strings are preserved by the stringifier -/

theorem scalarString_nil : ScalarString [] := fun x hx => absurd hx (List.not_mem_nil x)

theorem scalarString_cons (c : Nat) (s : List Nat)
    (hc : (c < 0xD800 ∨ 0xE000 ≤ c) ∧ c < 0x110000) (hs : ScalarString s) :
    ScalarString (c :: s) := by
  intro x hx
  rcases List.mem_cons.1 hx with h | h
  · subst h
    exact hc
  · exact hs x h

theorem scalarString_append (a b : List Nat) (ha : ScalarString a) (hb : ScalarString b) :
    ScalarString (a ++ b) := by
  intro c hc
  rcases List.mem_append.1 hc with h | h
  · exact ha c h
  · exact hb c h

theorem escU_elem (c x : Nat) (hx : x ∈ escU c) : x ≤ 117 := by
  simp [escU] at hx
  rcases hx with h | h | h | h | h | h
  · omega
  · omega
  · subst h
    exact (toHexDigit_le _ (by omega)).trans (by omega)
  · subst h
    exact (toHexDigit_le _ (by omega)).trans (by omega)
  · subst h
    exact (toHexDigit_le _ (by omega)).trans (by omega)
  · subst h
    exact (toHexDigit_le _ (by omega)).trans (by omega)

theorem escapeCp_elem (c x : Nat) (hx : x ∈ escapeCp c) : x = c ∨ x ≤ 117 := by
  rw [escapeCp] at hx
  split at hx
  · simp at hx
    omega
  · split at hx
    · simp at hx
      omega
    · split at hx
      · simp at hx
        omega
      · split at hx
        · simp at hx
          omega
        · split at hx
          · simp at hx
            omega
          · split at hx
            · simp at hx
              omega
            · split at hx
              · simp at hx
                omega
              · split at hx
                · exact Or.inr (escU_elem c x hx)
                · split at hx
                  · exact Or.inr (escU_elem c x hx)
                  · simp at hx
                    omega

theorem scalarString_escapeStr (s : List Nat) (hs : ScalarString s) :
    ScalarString (escapeStr s) := by
  induction s with
  | nil =>
    intro x hx
    simp [escapeStr] at hx
  | cons c cs ih =>
    intro x hx
    rw [escapeStr] at hx
    rcases List.mem_append.1 hx with h | h
    · rcases escapeCp_elem c x h with he | he
      · subst he
        exact hs x (List.mem_cons_self _ _)
      · exact ⟨Or.inl (by omega), by omega⟩
    · exact ih (fun y hy => hs y (List.mem_cons_of_mem _ hy)) x h

theorem scalarString_stringifyMeta (n t : List Nat)
    (hn : ScalarString n) (ht : ScalarString t) : ScalarString (stringifyMeta n t) := by
  rw [stringifyMeta_shape]
  apply scalarString_cons _ _ (by omega)
  apply scalarString_cons _ _ (by omega)
  apply scalarString_append _ _ (scalarString_escapeStr _ scalarString_name)
  apply scalarString_cons _ _ (by omega)
  apply scalarString_cons _ _ (by omega)
  apply scalarString_cons _ _ (by omega)
  apply scalarString_append _ _ (scalarString_escapeStr _ hn)
  apply scalarString_cons _ _ (by omega)
  apply scalarString_cons _ _ (by omega)
  apply scalarString_cons _ _ (by omega)
  apply scalarString_append _ _ (scalarString_escapeStr _ scalarString_type)
  apply scalarString_cons _ _ (by omega)
  apply scalarString_cons _ _ (by omega)
  apply scalarString_cons _ _ (by omega)
  apply scalarString_append _ _ (scalarString_escapeStr _ ht)
  apply scalarString_cons _ _ (by omega)
  apply scalarString_cons _ _ (by omega)
  exact scalarString_nil

/-! ## The envelope tier on an encoded payload -/

theorem getStr_meta_name (n t : List Nat) :
    getStr (JVal.jobj [(cps "name", JVal.jstr n), (cps "type", JVal.jstr t)])
      (cps "name") = some n := by
  have hne : ¬(cps "type" = cps "name") := by decide
  simp [getStr, lookupLast, hne]

theorem getStr_meta_type (n t : List Nat) :
    getStr (JVal.jobj [(cps "name", JVal.jstr n), (cps "type", JVal.jstr t)])
      (cps "type") = some t := by
  simp [getStr, lookupLast]

theorem utf8Encode_cons_head (c : Nat) (cs : List Nat) :
    utf8Encode (c :: cs) = utf8EncodeCp c ++ utf8Encode cs := rfl

theorem utf8Encode_meta_len (n t : List Nat) :
    1 ≤ (utf8Encode (stringifyMeta n t)).length := by
  rw [stringifyMeta_shape, utf8Encode_cons_head]
  have h123 : utf8EncodeCp 123 = [123] := by decide
  rw [h123]
  simp

theorem envelopeTier_encode (hidden n t : List Nat)
    (hn : ScalarString n) (ht : ScalarString t) (hh : hidden ≠ [])
    (hlen : (utf8Encode (stringifyMeta n t)).length < 0x100000000) :
    envelopeTier (be32encode (utf8Encode (stringifyMeta n t)).length ++
      (utf8Encode (stringifyMeta n t) ++ hidden)) = some ⟨hidden, n, t, hidden.length⟩ := by
  have hh1 : 0 < hidden.length := List.length_pos.2 hh
  have hmb1 := utf8Encode_meta_len n t
  have hL : (be32encode (utf8Encode (stringifyMeta n t)).length ++
      (utf8Encode (stringifyMeta n t) ++ hidden)).length =
      4 + (utf8Encode (stringifyMeta n t)).length + hidden.length := by
    simp [be32encode]
    omega
  have hbe := be32_encode_append (utf8Encode (stringifyMeta n t)).length
    (utf8Encode (stringifyMeta n t) ++ hidden) hlen
  have hslice : jsSlice (be32encode (utf8Encode (stringifyMeta n t)).length ++
      (utf8Encode (stringifyMeta n t) ++ hidden)) 4
      (4 + (utf8Encode (stringifyMeta n t)).length) = utf8Encode (stringifyMeta n t) := by
    rw [jsSlice, show 4 + (utf8Encode (stringifyMeta n t)).length - 4 =
      (utf8Encode (stringifyMeta n t)).length from by omega]
    rw [show (4 : Nat) = (be32encode (utf8Encode (stringifyMeta n t)).length).length from
      (length_be32encode _).symm]
    rw [List.drop_left, List.take_left]
  have hdrop : (be32encode (utf8Encode (stringifyMeta n t)).length ++
      (utf8Encode (stringifyMeta n t) ++ hidden)).drop
      (4 + (utf8Encode (stringifyMeta n t)).length) = hidden := by
    rw [show be32encode (utf8Encode (stringifyMeta n t)).length ++
      (utf8Encode (stringifyMeta n t) ++ hidden) =
      (be32encode (utf8Encode (stringifyMeta n t)).length ++
        utf8Encode (stringifyMeta n t)) ++ hidden from by simp [List.append_assoc]]
    rw [show 4 + (utf8Encode (stringifyMeta n t)).length =
      (be32encode (utf8Encode (stringifyMeta n t)).length ++
        utf8Encode (stringifyMeta n t)).length from by simp [be32encode]; omega]
    rw [List.drop_left]
  simp only [envelopeTier, hbe, hslice, hdrop]
  rw [if_pos (by omega), if_pos (by refine ⟨by omega, by omega, by omega⟩)]
  have hhead : (utf8Encode (stringifyMeta n t)).getD 0 0 = 123 := by
    rw [stringifyMeta_shape, utf8Encode_cons_head,
      show utf8EncodeCp 123 = [123] from by decide]
    rfl
  rw [utf8_roundtrip _ (scalarString_stringifyMeta n t hn ht) (by rw [hhead]; decide),
    jsonParse_meta n t hn ht]
  simp only [getStr_meta_name, getStr_meta_type]
  rw [if_pos hh1]



/-! ## Walker step helper lemmas -/

theorem m4aStep_halt_short (data : List Nat) (o : Nat) (h : ¬(o + 8 ≤ data.length)) :
    m4aStep data o = M4AStep.halt o := by
  simp only [m4aStep]
  rw [if_neg h]

theorem m4aStep_halt_badtype (data : List Nat) (o : Nat)
    (hin : o + 8 ≤ data.length) (ht : boxTypeValid data o = false) :
    m4aStep data o = M4AStep.halt o := by
  simp only [m4aStep]
  rw [if_pos hin, if_neg (by simp [ht])]

theorem m4aStep_halt_oversized (data : List Nat) (o : Nat)
    (hin : o + 8 ≤ data.length) (ht : boxTypeValid data o = true)
    (hs0 : be32 data o ≠ 0) (hs1 : be32 data o ≠ 1)
    (hover : data.length < o + be32 data o) :
    m4aStep data o = M4AStep.halt o := by
  simp only [m4aStep]
  rw [if_pos hin, if_pos ht, if_neg hs1, if_neg hs0, if_pos hover]

theorem m4aStep_halt_extended (data : List Nat) (o : Nat)
    (hin : o + 8 ≤ data.length) (ht : boxTypeValid data o = true)
    (hs1 : be32 data o = 1) (h16 : o + 16 ≤ data.length) (hhigh : be32 data (o+8) = 0)
    (hover : data.length < o + be32 data (o+12)) :
    m4aStep data o = M4AStep.halt o := by
  simp only [m4aStep]
  rw [if_pos hin, if_pos ht, if_pos hs1, if_neg (by omega : ¬(o + 16 > data.length)),
    if_neg (by omega : ¬(0 < be32 data (o + 8))), if_pos hover]

theorem m4aStep_cont_plain (data : List Nat) (o : Nat)
    (hin : o + 8 ≤ data.length) (ht : boxTypeValid data o = true)
    (hs0 : be32 data o ≠ 0) (hs1 : be32 data o ≠ 1)
    (hfit : ¬ data.length < o + be32 data o) :
    m4aStep data o = M4AStep.cont (o + be32 data o) := by
  simp only [m4aStep]
  rw [if_pos hin, if_pos ht, if_neg hs1, if_neg hs0, if_neg hfit]

/-! ## Claim theorems -/

/-- C2: for every payload whose leading 4-byte big-endian length field is 0 or
exceeds the remaining buffer, envelope decoding is rejected and the classifier
falls through to the signature/generic tiers; all functions are total, so no
uncaught exception can occur. -/
theorem c2_envelope_bound_check (payload : List Nat)
    (h : be32 payload 0 = 0 ∨ payload.length < 4 + be32 payload 0) :
    envelopeTier payload = none ∧ processPayload payload = fallbackTier payload := by
  have he : envelopeTier payload = none := by
    simp only [envelopeTier]
    by_cases h4 : 4 < payload.length
    · rw [if_pos h4, if_neg (by omega)]
    · rw [if_neg h4]
  refine ⟨he, ?_⟩
  rw [processPayload, he]

/-- Witness for C2 at the concrete payload `[0,0,0,9,1,2,3]` (declared
length 9 exceeds the 3 remaining bytes). -/
theorem c2_witness :
    envelopeTier [0, 0, 0, 9, 1, 2, 3] = none ∧
      processPayload [0, 0, 0, 9, 1, 2, 3] = fallbackTier [0, 0, 0, 9, 1, 2, 3] :=
  c2_envelope_bound_check [0, 0, 0, 9, 1, 2, 3] (Or.inr (by decide))

/-- C5: when the walker reaches a box whose declared size (plain or 64-bit
extended) would advance the offset strictly past the buffer length, the step
halts and the loop reports the offset at the start of that box. -/
theorem c5_oversized_box_boundary (data : List Nat) (o : Nat)
    (hin : o + 8 ≤ data.length)
    (htype : boxTypeValid data o = true)
    (hsz : (be32 data o ≠ 0 ∧ be32 data o ≠ 1 ∧ data.length < o + be32 data o) ∨
      (be32 data o = 1 ∧ o + 16 ≤ data.length ∧ be32 data (o+8) = 0 ∧
        data.length < o + be32 data (o+12))) :
    m4aStep data o = M4AStep.halt o ∧ ∀ fuel, m4aLoop data (fuel+1) o = some o := by
  have hstep : m4aStep data o = M4AStep.halt o := by
    rcases hsz with ⟨h0, h1, hover⟩ | ⟨h1, h16, hhigh, hover⟩
    · exact m4aStep_halt_oversized data o hin htype h0 h1 hover
    · exact m4aStep_halt_extended data o hin htype h1 h16 hhigh hover
  exact ⟨hstep, fun fuel => m4aLoop_halt data fuel o o hstep⟩

/-- Witness for C5: a lone 8-byte buffer whose `ftyp` box declares size 50. -/
theorem c5_witness :
    m4aStep [0, 0, 0, 50, 102, 116, 121, 112] 0 = M4AStep.halt 0 ∧
      ∀ fuel, m4aLoop [0, 0, 0, 50, 102, 116, 121, 112] (fuel+1) 0 = some 0 :=
  c5_oversized_box_boundary [0, 0, 0, 50, 102, 116, 121, 112] 0 (by decide) (by decide)
    (Or.inl (by decide))

/-- C8: the oracle-assisted decode classifies `bytes[splitIndex:]` with the
same classifier a locator-found boundary uses, exactly when
`0 < splitIndex < length`; any other reply (0, -1, out of range) yields no
hidden file. -/
theorem c8_oracle_split (data : List Nat) (s : Int) :
    (0 < s ∧ s < (data.length : Int) →
      decodePolyglotWithAI data s = processPayload (data.drop s.toNat)) ∧
    (s ≤ 0 ∨ (data.length : Int) ≤ s → decodePolyglotWithAI data s = none) := by
  constructor
  · intro h
    rw [decodePolyglotWithAI, if_pos h]
  · intro h
    rw [decodePolyglotWithAI, if_neg (by omega)]

/-- Witness for C8 on a 5-byte buffer: split index 2 classifies the sliced
payload; split index -1 fails. -/
theorem c8_witness :
    decodePolyglotWithAI [1, 2, 3, 4, 5] 2 = processPayload [3, 4, 5] ∧
      decodePolyglotWithAI [1, 2, 3, 4, 5] (-1) = none :=
  ⟨by simpa using (c8_oracle_split [1, 2, 3, 4, 5] 2).1 (by decide),
   (c8_oracle_split [1, 2, 3, 4, 5] (-1)).2 (by decide)⟩

/-- C10 is a code bug: on a box with 32-bit size field 1 whose 64-bit
extended size has zero high and zero low word, the box-walking loop repeats
the same offset forever — the claimed progress property fails.  In the fuel
model the loop returns within no fuel bound, and `decodeM4AContainer`
(modelled outer `none` = divergence) never returns. -/
theorem c10_walker_divergence :
    m4aStep [0, 0, 0, 1, 102, 116, 121, 112, 0, 0, 0, 0, 0, 0, 0, 0] 0 = M4AStep.cont 0 ∧
    (∀ fuel, m4aLoop [0, 0, 0, 1, 102, 116, 121, 112, 0, 0, 0, 0, 0, 0, 0, 0] fuel 0 = none) ∧
    (∀ t, decodeM4AContainer [0, 0, 0, 1, 102, 116, 121, 112, 0, 0, 0, 0, 0, 0, 0, 0] t
      = none) := by
  have hstep : m4aStep [0, 0, 0, 1, 102, 116, 121, 112, 0, 0, 0, 0, 0, 0, 0, 0] 0 =
      M4AStep.cont 0 := by decide
  refine ⟨hstep, m4aLoop_none_of_selfloop _ _ hstep, fun t => ?_⟩
  rw [decodeM4AContainer, m4aLoop_none_of_selfloop _ _ hstep]

/-- C1 counterexample: with empty hidden bytes (and empty media type) the
round trip fails — the envelope tier requires non-empty trailing data, so the
decode falls through to the generic tier and returns `hidden-file.dat` with
MIME `application/octet-stream` instead of the encoder inputs. -/
theorem c1_counterexample :
    processPayload ((createPolyglotBytes [] [] (cps "a") (cps "")).drop
      (List.length ([] : List Nat))) ≠
      some ⟨[], cps "a", cps "", 0⟩ := by decide

/-- C1 (amended): the round trip holds for every container, every non-empty
hidden byte string, and every well-formed (scalar-valued) hidden name and
non-empty media type whose serialized metadata record is shorter than 2^32
bytes: classifying the bytes the encoder appended after the container returns
exactly the hidden bytes, name and media type. -/
theorem c1_roundtrip_amended (container hidden hiddenName hiddenType : List Nat)
    (hn : ScalarString hiddenName) (ht : ScalarString hiddenType)
    (hh : hidden ≠ []) (htne : hiddenType ≠ [])
    (hlen : (utf8Encode (stringifyMeta hiddenName hiddenType)).length < 0x100000000) :
    processPayload ((createPolyglotBytes container hidden hiddenName hiddenType).drop
      container.length) = some ⟨hidden, hiddenName, hiddenType, hidden.length⟩ := by
  simp only [createPolyglotBytes]
  rw [if_neg htne]
  rw [show container ++ be32encode (utf8Encode (stringifyMeta hiddenName hiddenType)).length ++
      utf8Encode (stringifyMeta hiddenName hiddenType) ++ hidden =
      container ++ (be32encode (utf8Encode (stringifyMeta hiddenName hiddenType)).length ++
        (utf8Encode (stringifyMeta hiddenName hiddenType) ++ hidden)) from by
    simp [List.append_assoc]]
  rw [List.drop_left, processPayload,
    envelopeTier_encode hidden hiddenName hiddenType hn ht hh hlen]

/-- Witness for the amended C1 at a concrete encode/decode pair. -/
theorem c1_witness :
    processPayload ((createPolyglotBytes [1, 2, 3] [77, 90, 9, 9] (cps "a b.exe")
      (cps "app/x")).drop (List.length [1, 2, 3])) =
      some ⟨[77, 90, 9, 9], cps "a b.exe", cps "app/x", List.length [77, 90, 9, 9]⟩ :=
  c1_roundtrip_amended [1, 2, 3] [77, 90, 9, 9] (cps "a b.exe") (cps "app/x")
    (by unfold ScalarString; decide) (by unfold ScalarString; decide)
    (by decide) (by decide) (by decide)

/-- C7 counterexample: on the M4A path the sliced payload is NOT handed to
the payload classifier — at this input `decodeM4AContainer` returns the file
named `hidden.exe` while the classifier of the same payload would synthesize
`hidden-file.exe`. -/
theorem c7_counterexample :
    decodeM4AContainer [0, 0, 0, 8, 102, 116, 121, 112, 77, 90, 0] ExecutableType.exe ≠
      some (processPayload (List.drop 8 [0, 0, 0, 8, 102, 116, 121, 112, 77, 90, 0])) := by
  decide

/-- C7 (amended): on the M4A decode path, a successful locate never consults
the payload classifier or the envelope: the whole sliced payload is returned
as-is with the synthesized name `hidden.<ext>` and the registry MIME of the
caller's hint, and the only check performed is that the payload begins with
the hint's signature. -/
theorem c7_m4a_no_classifier (data : List Nat) (t : ExecutableType) (r : DecodedFile)
    (h : decodeM4AContainer data t = some (some r)) :
    ∃ e s, signatures.find? (fun en => en.key == sigKey t) = some e ∧
      0 < s ∧ s < data.length ∧
      r = ⟨data.drop s, cps "hidden." ++ cps e.ext, cps e.mime, (data.drop s).length⟩ ∧
      findSequence (data.drop s) e.sig 0 = some 0 := by
  simp only [decodeM4AContainer] at h
  match hm : m4aLoop data (data.length + 2) 0 with
  | none =>
    rw [hm] at h
    exact absurd h (by simp)
  | some splitIndex =>
    rw [hm] at h
    simp only [Option.some.injEq] at h
    by_cases hrange : 0 < splitIndex ∧ splitIndex < data.length
    · rw [if_pos hrange] at h
      match hf : signatures.find? (fun en => en.key == sigKey t) with
      | none =>
        rw [hf] at h
        exact absurd h (by simp)
      | some e =>
        rw [hf] at h
        have h2 : (if findSequence (List.drop splitIndex data) e.sig 0 = some 0 then
            some (⟨List.drop splitIndex data, cps "hidden." ++ cps e.ext, cps e.mime,
              (List.drop splitIndex data).length⟩ : DecodedFile)
          else none) = some r := h
        by_cases hsig : findSequence (data.drop splitIndex) e.sig 0 = some 0
        · rw [if_pos hsig] at h2
          simp only [Option.some.injEq] at h2
          exact ⟨e, splitIndex, hf, hrange.1, hrange.2, h2.symm, hsig⟩
        · rw [if_neg hsig] at h2
          exact absurd h2 (by simp)
    · rw [if_neg hrange] at h
      exact absurd h (by simp)

/-- Witness for the amended C7 at a concrete M4A buffer. -/
theorem c7_witness :
    ∃ e s, signatures.find? (fun en => en.key == sigKey ExecutableType.exe) = some e ∧
      0 < s ∧ s < (List.length [0, 0, 0, 8, 102, 116, 121, 112, 77, 90, 0]) ∧
      (⟨[77, 90, 0], cps "hidden.exe",
        cps "application/vnd.microsoft.portable-executable", 3⟩ : DecodedFile) =
        ⟨List.drop s [0, 0, 0, 8, 102, 116, 121, 112, 77, 90, 0],
          cps "hidden." ++ cps e.ext, cps e.mime,
          (List.drop s [0, 0, 0, 8, 102, 116, 121, 112, 77, 90, 0]).length⟩ ∧
      findSequence (List.drop s [0, 0, 0, 8, 102, 116, 121, 112, 77, 90, 0]) e.sig 0 =
        some 0 :=
  c7_m4a_no_classifier [0, 0, 0, 8, 102, 116, 121, 112, 77, 90, 0] ExecutableType.exe
    ⟨[77, 90, 0], cps "hidden.exe",
      cps "application/vnd.microsoft.portable-executable", 3⟩ (by decide)



/-- C3: for a buffer with the JPEG signature whose last `FF D9` occurrence is
at `p`, the JPEG locator returns `p + 2` (the scan takes the last of all
occurrences, as in the tie-break scenario `p1 < p2 < p3`). -/
theorem c3_jpeg_last_marker (data : List Nat) (p : Nat)
    (hhdr : startsWithL data [0xFF, 0xD8, 0xFF] = true)
    (hp : matchesAt data [0xFF, 0xD9] p = true)
    (hlast : ∀ q, q < data.length → p < q → matchesAt data [0xFF, 0xD9] q = false) :
    jpegLocate data = some (p + 2) ∧ pngJpegGifSplit data = some (p + 2) := by
  have hlast2 : ∀ q, p < q → matchesAt data [0xFF, 0xD9] q = false := by
    intro q hq
    by_cases hql : q < data.length
    · exact hlast q hql hq
    · exact matchesAt_false_of_lt _ _ _ (by simp; omega)
  have hj : jpegLocate data = some (p + 2) := by
    rw [jpegLocate, jpegGo_ret data p hp hlast2 (data.length + 1) 0 none (by omega)
      (Nat.zero_le p)]
    rfl
  refine ⟨hj, ?_⟩
  have h0 : data.getD 0 0 = 0xFF := by
    simpa using startsWithL_getD data [0xFF, 0xD8, 0xFF] hhdr 0 (by decide)
  have hpng : startsWithL data [0x89, 0x50, 0x4E, 0x47] = false :=
    startsWithL_false_of_getD _ _ 0 (by decide) (by rw [h0]; decide)
  rw [pngJpegGifSplit, if_neg (by simp [hpng]), if_pos hhdr]
  exact hj

/-- Witness for C3 on a JPEG buffer with `FF D9` at indices 3, 6 and 9. -/
theorem c3_witness :
    jpegLocate [0xFF, 0xD8, 0xFF, 0xFF, 0xD9, 0, 0xFF, 0xD9, 0, 0xFF, 0xD9, 7] =
      some (9 + 2) ∧
    pngJpegGifSplit [0xFF, 0xD8, 0xFF, 0xFF, 0xD9, 0, 0xFF, 0xD9, 0, 0xFF, 0xD9, 7] =
      some (9 + 2) :=
  c3_jpeg_last_marker [0xFF, 0xD8, 0xFF, 0xFF, 0xD9, 0, 0xFF, 0xD9, 0, 0xFF, 0xD9, 7] 9
    (by decide) (by decide) (by decide)

/-- C4: for a buffer with the GIF signature whose trailer byte `3B` occurs
both mid-stream (last such occurrence at `p ≤ length - 2`) and as the final
byte, the backward search from `length - 2` skips the final byte and returns
the mid-stream trailer: boundary `p + 1`. -/
theorem c4_gif_backward_search (data : List Nat) (p : Nat)
    (hhdr : startsWithL data [0x47, 0x49, 0x46] = true)
    (hp : data.getD p 0 = 0x3B)
    (hple : p ≤ data.length - 2)
    (hmid : ∀ q, q < data.length - 1 → p < q → data.getD q 0 ≠ 0x3B)
    (_hfinal : data.getD (data.length - 1) 0 = 0x3B) :
    gifLocate data = some (p + 1) ∧ pngJpegGifSplit data = some (p + 1) := by
  have hlen3 : 3 ≤ data.length := by simpa using startsWithL_length data _ hhdr
  have hg : gifLocate data = some (p + 1) := by
    rw [gifLocate]
    simp only [jsLastIndexOf]
    rw [if_pos (by omega : (0:Int) ≤ (data.length : Int) - 2)]
    rw [show min ((data.length : Int) - 2) ((data.length : Int) - 1) =
      (data.length : Int) - 2 from by omega]
    rw [if_neg (by omega : ¬((data.length : Int) - 2 < 0))]
    rw [show ((data.length : Int) - 2).toNat = data.length - 2 from by omega]
    rw [lastIdxGo_spec data 0x3B p (data.length - 2) hp hple
      (fun q h1 h2 => hmid q (by omega) h1)]
    rfl
  refine ⟨hg, ?_⟩
  have h0 : data.getD 0 0 = 0x47 := by
    simpa using startsWithL_getD data [0x47, 0x49, 0x46] hhdr 0 (by decide)
  have hpng : startsWithL data [0x89, 0x50, 0x4E, 0x47] = false :=
    startsWithL_false_of_getD _ _ 0 (by decide) (by rw [h0]; decide)
  have hjpg : startsWithL data [0xFF, 0xD8, 0xFF] = false :=
    startsWithL_false_of_getD _ _ 0 (by decide) (by rw [h0]; decide)
  rw [pngJpegGifSplit, if_neg (by simp [hpng]), if_neg (by simp [hjpg]), if_pos hhdr]
  exact hg

/-- Witness for C4: trailer byte at index 3 (mid-stream) and at the final
index 6; the locator returns 3 + 1. -/
theorem c4_witness :
    gifLocate [0x47, 0x49, 0x46, 0x3B, 5, 6, 0x3B] = some (3 + 1) ∧
    pngJpegGifSplit [0x47, 0x49, 0x46, 0x3B, 5, 6, 0x3B] = some (3 + 1) :=
  c4_gif_backward_search [0x47, 0x49, 0x46, 0x3B, 5, 6, 0x3B] 3
    (by decide) (by decide) (by decide) (by decide) (by decide)



/-! ## Signature-scan lemmas for the fallback tier -/

theorem scanSignatures_some (es : List SigEntry) (payload : List Nat) (e : SigEntry) (i : Nat)
    (h : scanSignatures es payload = some (e, i)) :
    e ∈ es ∧ findSequence payload e.sig 0 = some i ∧ i < 16 := by
  induction es with
  | nil => simp [scanSignatures] at h
  | cons e0 es ih =>
    rw [scanSignatures] at h
    match hf : findSequence payload e0.sig 0 with
    | some j =>
      rw [hf] at h
      have h2 : (if j < 16 then some (e0, j) else scanSignatures es payload) = some (e, i) := h
      by_cases hj : j < 16
      · rw [if_pos hj] at h2
        simp only [Option.some.injEq, Prod.mk.injEq] at h2
        obtain ⟨he, hi⟩ := h2
        subst he
        subst hi
        exact ⟨List.mem_cons_self _ _, hf, hj⟩
      · rw [if_neg hj] at h2
        obtain ⟨h1, h3⟩ := ih h2
        exact ⟨List.mem_cons_of_mem _ h1, h3⟩
    | none =>
      rw [hf] at h
      have h2 : scanSignatures es payload = some (e, i) := h
      obtain ⟨h1, h3⟩ := ih h2
      exact ⟨List.mem_cons_of_mem _ h1, h3⟩

theorem scanSignatures_none (es : List SigEntry) (payload : List Nat)
    (h : scanSignatures es payload = none) :
    ∀ e ∈ es, ∀ i, findSequence payload e.sig 0 = some i → ¬ i < 16 := by
  induction es with
  | nil =>
    intro e he
    simp at he
  | cons e0 es ih =>
    rw [scanSignatures] at h
    have hsplit : scanSignatures es payload = none ∧
        (∀ i, findSequence payload e0.sig 0 = some i → ¬ i < 16) := by
      match hf : findSequence payload e0.sig 0 with
      | some j =>
        rw [hf] at h
        have h2 : (if j < 16 then some (e0, j) else scanSignatures es payload) = none := h
        by_cases hj : j < 16
        · rw [if_pos hj] at h2
          exact absurd h2 (by simp)
        · rw [if_neg hj] at h2
          refine ⟨h2, fun i hi => ?_⟩
          injection hi with hji
          omega
      | none =>
        rw [hf] at h
        have h2 : scanSignatures es payload = none := h
        refine ⟨h2, fun i hi => ?_⟩
        simp at hi
    intro e he i hfi
    rcases List.mem_cons.1 he with he0 | hmem
    · subst he0
      exact hsplit.2 i hfi
    · exact ih hsplit.1 e hmem i hfi

/-- C9: when the envelope tier fails, the signature tier returns a slice from
the first occurrence of a registry signature exactly when some registry
signature first occurs at an offset < 16 (name `hidden-file.<ext>`, the
registry MIME); otherwise a non-empty payload is returned whole as
`hidden-file.dat` / `application/octet-stream`, and an empty payload yields
none. -/
theorem c9_signature_window (payload : List Nat)
    (henv : envelopeTier payload = none) :
    ((∃ e ∈ signatures, ∃ i, findSequence payload e.sig 0 = some i ∧ i < 16) →
      ∃ e i, e ∈ signatures ∧ findSequence payload e.sig 0 = some i ∧ i < 16 ∧
        processPayload payload =
          some ⟨payload.drop i, cps "hidden-file." ++ cps e.ext, cps e.mime,
            payload.length - i⟩) ∧
    ((∀ e ∈ signatures, ∀ i, findSequence payload e.sig 0 = some i → ¬ i < 16) →
      payload ≠ [] →
      processPayload payload =
        some ⟨payload, cps "hidden-file.dat", cps "application/octet-stream",
          payload.length⟩) ∧
    (payload = [] → processPayload payload = none) := by
  have hpp : processPayload payload = fallbackTier payload := by rw [processPayload, henv]
  refine ⟨?_, ?_, ?_⟩
  · rintro ⟨e, he, i, hfi, hi⟩
    match hscan : scanSignatures signatures payload with
    | none => exact absurd hi (scanSignatures_none _ _ hscan e he i hfi)
    | some (e2, i2) =>
      obtain ⟨he2, hf2, hi2⟩ := scanSignatures_some _ _ _ _ hscan
      have hlen : 0 < payload.length := by
        obtain ⟨hm, _, _⟩ := findSequence_some _ _ _ _ hfi
        have h1 : i + e.sig.length ≤ payload.length := by
          by_contra hc
          rw [matchesAt_false_of_lt _ _ _ (by omega)] at hm
          exact absurd hm (by simp)
        have h2 : e.sig ≠ [] :=
          (by decide : ∀ x ∈ signatures, x.sig ≠ ([] : List Nat)) e he
        have h3 : 0 < e.sig.length := List.length_pos.2 h2
        omega
      rw [hpp, fallbackTier, if_pos hlen, hscan]
      exact ⟨e2, i2, he2, hf2, hi2, rfl⟩
  · intro hnone hne
    have hlen : 0 < payload.length := List.length_pos.2 hne
    match hscan : scanSignatures signatures payload with
    | some (e2, i2) =>
      obtain ⟨he2, hf2, hi2⟩ := scanSignatures_some _ _ _ _ hscan
      exact absurd hi2 (hnone e2 he2 i2 hf2)
    | none =>
      rw [hpp, fallbackTier, if_pos hlen, hscan]
  · intro hnil
    subst hnil
    rw [hpp]
    rfl

/-- Witness for C9: a PNG magic at payload offset 15 is detected and sliced;
with one more byte of padding (offset 16) the payload falls to the generic
tier. -/
theorem c9_witness :
    (∃ e i, e ∈ signatures ∧
      findSequence [0, 0, 0, 0, 0, 0, 0, 0, 0, 0, 0, 0, 0, 0, 0,
        0x89, 0x50, 0x4E, 0x47, 0x0D, 0x0A, 0x1A, 0x0A] e.sig 0 = some i ∧ i < 16 ∧
      processPayload [0, 0, 0, 0, 0, 0, 0, 0, 0, 0, 0, 0, 0, 0, 0,
        0x89, 0x50, 0x4E, 0x47, 0x0D, 0x0A, 0x1A, 0x0A] =
        some ⟨List.drop i [0, 0, 0, 0, 0, 0, 0, 0, 0, 0, 0, 0, 0, 0, 0,
          0x89, 0x50, 0x4E, 0x47, 0x0D, 0x0A, 0x1A, 0x0A],
          cps "hidden-file." ++ cps e.ext, cps e.mime, 23 - i⟩) ∧
    processPayload [0, 0, 0, 0, 0, 0, 0, 0, 0, 0, 0, 0, 0, 0, 0, 0,
      0x89, 0x50, 0x4E, 0x47, 0x0D, 0x0A, 0x1A, 0x0A] =
      some ⟨[0, 0, 0, 0, 0, 0, 0, 0, 0, 0, 0, 0, 0, 0, 0, 0,
        0x89, 0x50, 0x4E, 0x47, 0x0D, 0x0A, 0x1A, 0x0A],
        cps "hidden-file.dat", cps "application/octet-stream", 24⟩ := by
  constructor
  · exact (c9_signature_window _ (by decide)).1
      ⟨⟨"PNG", [0x89, 0x50, 0x4E, 0x47, 0x0D, 0x0A, 0x1A, 0x0A], "image/png", "png"⟩,
        by decide, 15, by decide, by decide⟩
  · have hs : scanSignatures signatures [0, 0, 0, 0, 0, 0, 0, 0, 0, 0, 0, 0, 0, 0, 0, 0,
        0x89, 0x50, 0x4E, 0x47, 0x0D, 0x0A, 0x1A, 0x0A] = none := by decide
    have h := (c9_signature_window _ (by decide)).2.1 (scanSignatures_none _ _ hs) (by decide)
    simpa using h



/-! ## Helpers for C6 -/

theorem matchesAt_two (arr : List Nat) (i a b : Nat) (hlen : i + 2 ≤ arr.length)
    (ha : arr.getD i 0 = a) (hb : arr.getD (i+1) 0 = b) :
    matchesAt arr [a, b] i = true := by
  have hr : List.range 2 = [0, 1] := rfl
  simp only [matchesAt, hr, List.length_cons, List.length_nil, List.all_cons, List.all_nil,
    Bool.and_true, Bool.and_eq_true, decide_eq_true_eq, beq_iff_eq]
  refine ⟨by omega, ?_, ?_⟩
  · simpa [List.getD_eq_getElem?_getD] using ha
  · simpa [List.getD_eq_getElem?_getD] using hb

theorem matchesAt_getD (arr sig : List Nat) (i j : Nat)
    (h : matchesAt arr sig i = true) (hj : j < sig.length) :
    arr.getD (i+j) 0 = sig.getD j 0 := by
  simp [matchesAt] at h
  simpa [List.getD_eq_getElem?_getD] using h.2 j hj

/-- C6: an M4A file made of three well-formed boxes of sizes 8, 16 and 8
followed by bytes starting with the EXE signature `4D 5A` decodes at boundary
32, and extraction succeeds exactly with hint `exe` (hint `apk` yields no
hidden file at all, also after the marker-tier fallback).  The size cap
excludes a > 1.2 GiB continuation in which the `4D 5A ..` bytes themselves
form a further valid box. -/
theorem c6_m4a_exe_hint (data fileName fileType : List Nat)
    (hlen : 34 ≤ data.length) (hcap : data.length < 0x4D5A0000 + 32)
    (hs1 : be32 data 0 = 8) (ht1 : boxTypeValid data 0 = true)
    (hs2 : be32 data 8 = 16) (ht2 : boxTypeValid data 8 = true)
    (hs3 : be32 data 24 = 8) (ht3 : boxTypeValid data 24 = true)
    (hmz1 : data.getD 32 0 = 0x4D) (hmz2 : data.getD 33 0 = 0x5A)
    (hm4a : isM4AFile fileName fileType = true) :
    decodeM4AContainer data ExecutableType.exe =
      some (some ⟨data.drop 32, cps "hidden.exe",
        cps "application/vnd.microsoft.portable-executable", (data.drop 32).length⟩) ∧
    decodeM4AContainer data ExecutableType.apk = some none ∧
    decodePolyglot fileName fileType (some ExecutableType.exe) data =
      some (some ⟨data.drop 32, cps "hidden.exe",
        cps "application/vnd.microsoft.portable-executable", (data.drop 32).length⟩) ∧
    decodePolyglot fileName fileType (some ExecutableType.apk) data = some none := by
  have st0 : m4aStep data 0 = M4AStep.cont 8 := by
    have h := m4aStep_cont_plain data 0 (by omega) ht1 (by omega) (by omega) (by omega)
    rw [hs1] at h
    exact h
  have st8 : m4aStep data 8 = M4AStep.cont 24 := by
    have h := m4aStep_cont_plain data 8 (by omega) ht2 (by omega) (by omega) (by omega)
    rw [hs2] at h
    exact h
  have st24 : m4aStep data 24 = M4AStep.cont 32 := by
    have h := m4aStep_cont_plain data 24 (by omega) ht3 (by omega) (by omega) (by omega)
    rw [hs3] at h
    exact h
  have hbig : 0x4D5A0000 ≤ be32 data 32 := by
    rw [be32, hmz1, hmz2]
    omega
  have st32 : m4aStep data 32 = M4AStep.halt 32 := by
    by_cases h40 : 32 + 8 ≤ data.length
    · by_cases htv : boxTypeValid data 32 = true
      · exact m4aStep_halt_oversized data 32 h40 htv (by omega) (by omega) (by omega)
      · exact m4aStep_halt_badtype data 32 h40 (by simpa using htv)
    · exact m4aStep_halt_short data 32 h40
  obtain ⟨m, hm⟩ := Nat.exists_eq_add_of_le hlen
  have hloop : m4aLoop data (data.length + 2) 0 = some 32 := by
    rw [hm, show 34 + m + 2 = (35 + m) + 1 from by omega, m4aLoop_cont _ _ _ _ st0,
      show 35 + m = (34 + m) + 1 from by omega, m4aLoop_cont _ _ _ _ st8,
      show 34 + m = (33 + m) + 1 from by omega, m4aLoop_cont _ _ _ _ st24,
      show 33 + m = (32 + m) + 1 from by omega, m4aLoop_halt _ _ _ _ st32]
  have hmzmatch : matchesAt (data.drop 32) [0x4D, 0x5A] 0 = true := by
    apply matchesAt_two
    · rw [List.length_drop]
      omega
    · rw [getD_drop]
      exact hmz1
    · rw [getD_drop]
      exact hmz2
  have hfexe : findSequence (data.drop 32) [0x4D, 0x5A] 0 = some 0 :=
    findSequence_zero_of_matchesAt _ _ hmzmatch
  have hfapk : ¬ findSequence (data.drop 32) [0x50, 0x4B, 0x03, 0x04] 0 = some 0 := by
    intro hc
    have hm0 := (findSequence_some _ _ _ _ hc).1
    have hq := matchesAt_getD _ _ 0 0 hm0 (by decide)
    rw [getD_drop, show (32 : Nat) + 0 = 32 from rfl, hmz1] at hq
    simp at hq
  have hexe : decodeM4AContainer data ExecutableType.exe =
      some (some ⟨data.drop 32, cps "hidden.exe",
        cps "application/vnd.microsoft.portable-executable", (data.drop 32).length⟩) := by
    simp only [decodeM4AContainer, hloop]
    rw [if_pos (by omega : 0 < 32 ∧ 32 < data.length)]
    have hfind : signatures.find? (fun e => e.key == sigKey ExecutableType.exe) =
        some ⟨"EXE", [0x4D, 0x5A], "application/vnd.microsoft.portable-executable", "exe"⟩ := by
      decide
    rw [hfind]
    have h2 : (if findSequence (List.drop 32 data) [0x4D, 0x5A] 0 = some 0 then
        some (⟨List.drop 32 data, cps "hidden." ++ cps "exe",
          cps "application/vnd.microsoft.portable-executable",
          (List.drop 32 data).length⟩ : DecodedFile)
      else none) = some (⟨List.drop 32 data, cps "hidden.exe",
        cps "application/vnd.microsoft.portable-executable",
        (List.drop 32 data).length⟩ : DecodedFile) := by
      rw [if_pos hfexe]
      rfl
    exact congrArg some h2
  have hapk : decodeM4AContainer data ExecutableType.apk = some none := by
    simp only [decodeM4AContainer, hloop]
    rw [if_pos (by omega : 0 < 32 ∧ 32 < data.length)]
    have hfind : signatures.find? (fun e => e.key == sigKey ExecutableType.apk) =
        some ⟨"APK", [0x50, 0x4B, 0x03, 0x04],
          "application/vnd.android.package-archive", "apk"⟩ := by
      decide
    rw [hfind]
    have h2 : (if findSequence (List.drop 32 data) [0x50, 0x4B, 0x03, 0x04] 0 = some 0 then
        some (⟨List.drop 32 data, cps "hidden." ++ cps "apk",
          cps "application/vnd.android.package-archive",
          (List.drop 32 data).length⟩ : DecodedFile)
      else none) = (none : Option DecodedFile) := by
      rw [if_neg hfapk]
    exact congrArg some h2
  have hd0 : data.getD 0 0 = 0 := by
    rw [be32] at hs1
    omega
  have hpng : startsWithL data [0x89, 0x50, 0x4E, 0x47] = false :=
    startsWithL_false_of_getD _ _ 0 (by decide) (by rw [hd0]; decide)
  have hjpg : startsWithL data [0xFF, 0xD8, 0xFF] = false :=
    startsWithL_false_of_getD _ _ 0 (by decide) (by rw [hd0]; decide)
  have hgif : startsWithL data [0x47, 0x49, 0x46] = false :=
    startsWithL_false_of_getD _ _ 0 (by decide) (by rw [hd0]; decide)
  have hmarker : markerTierDecode data = none := by
    rw [markerTierDecode, pngJpegGifSplit, if_neg (by simp [hpng]), if_neg (by simp [hjpg]),
      if_neg (by simp [hgif])]
  refine ⟨hexe, hapk, ?_, ?_⟩
  · rw [decodePolyglot, if_pos hm4a]
    show (match decodeM4AContainer data ExecutableType.exe with
      | none => none
      | some (some r) => some (some r)
      | some none => some (markerTierDecode data)) =
      some (some ⟨data.drop 32, cps "hidden.exe",
        cps "application/vnd.microsoft.portable-executable", (data.drop 32).length⟩)
    rw [hexe]
  · rw [decodePolyglot, if_pos hm4a]
    show (match decodeM4AContainer data ExecutableType.apk with
      | none => none
      | some (some r) => some (some r)
      | some none => some (markerTierDecode data)) = some none
    rw [hapk]
    show some (markerTierDecode data) = some none
    rw [hmarker]

/-- Witness for C6: `ftyp(8) moov(16) mdat(8)` followed by `4D 5A`, decoded
as `song.m4a`. -/
theorem c6_witness :
    decodeM4AContainer [0, 0, 0, 8, 102, 116, 121, 112,
        0, 0, 0, 16, 109, 111, 111, 118, 0, 0, 0, 0, 0, 0, 0, 0,
        0, 0, 0, 8, 109, 100, 97, 116, 77, 90] ExecutableType.exe =
      some (some ⟨List.drop 32 [0, 0, 0, 8, 102, 116, 121, 112,
        0, 0, 0, 16, 109, 111, 111, 118, 0, 0, 0, 0, 0, 0, 0, 0,
        0, 0, 0, 8, 109, 100, 97, 116, 77, 90], cps "hidden.exe",
        cps "application/vnd.microsoft.portable-executable",
        (List.drop 32 [0, 0, 0, 8, 102, 116, 121, 112,
          0, 0, 0, 16, 109, 111, 111, 118, 0, 0, 0, 0, 0, 0, 0, 0,
          0, 0, 0, 8, 109, 100, 97, 116, 77, 90]).length⟩) ∧
    decodeM4AContainer [0, 0, 0, 8, 102, 116, 121, 112,
        0, 0, 0, 16, 109, 111, 111, 118, 0, 0, 0, 0, 0, 0, 0, 0,
        0, 0, 0, 8, 109, 100, 97, 116, 77, 90] ExecutableType.apk = some none ∧
    decodePolyglot (cps "song.m4a") [] (some ExecutableType.exe)
      [0, 0, 0, 8, 102, 116, 121, 112,
        0, 0, 0, 16, 109, 111, 111, 118, 0, 0, 0, 0, 0, 0, 0, 0,
        0, 0, 0, 8, 109, 100, 97, 116, 77, 90] =
      some (some ⟨List.drop 32 [0, 0, 0, 8, 102, 116, 121, 112,
        0, 0, 0, 16, 109, 111, 111, 118, 0, 0, 0, 0, 0, 0, 0, 0,
        0, 0, 0, 8, 109, 100, 97, 116, 77, 90], cps "hidden.exe",
        cps "application/vnd.microsoft.portable-executable",
        (List.drop 32 [0, 0, 0, 8, 102, 116, 121, 112,
          0, 0, 0, 16, 109, 111, 111, 118, 0, 0, 0, 0, 0, 0, 0, 0,
          0, 0, 0, 8, 109, 100, 97, 116, 77, 90]).length⟩) ∧
    decodePolyglot (cps "song.m4a") [] (some ExecutableType.apk)
      [0, 0, 0, 8, 102, 116, 121, 112,
        0, 0, 0, 16, 109, 111, 111, 118, 0, 0, 0, 0, 0, 0, 0, 0,
        0, 0, 0, 8, 109, 100, 97, 116, 77, 90] = some none :=
  c6_m4a_exe_hint _ (cps "song.m4a") [] (by decide) (by decide)
    (by decide) (by decide) (by decide) (by decide) (by decide) (by decide)
    (by decide) (by decide) (by decide)


end Polyglot
